import Mathlib

/-!
Verification of the `dou_dizhu` rule-correctness library.

The development shallowly embeds the data model and algorithms of the
crate: ranks, validated hands, structural compositions, play
classification, the partial order on plays, checked arithmetic, and the
play-search engine.  Machine integers (`u8`) are modelled as `Nat`, with
wrap-on-underflow subtraction made explicit where the source uses
`wrapping_sub`.
-/

namespace DouDizhu

/-- A card rank, `src/rank.rs`: the 15 ranks in strength order
`Three = 0, …, Ace = 11, Two = 12, BlackJoker = 13, RedJoker = 14`.
The Rust enum is `repr(u8)` and is used as an array index everywhere,
so we embed it as `Fin 15`; the derived `Ord` on the enum is the
numeric order of the discriminant. -/
abbrev Rank := Fin 15

def Rank.two : Rank := ⟨12, by decide⟩

def Rank.blackJoker : Rank := ⟨13, by decide⟩

def Rank.redJoker : Rank := ⟨14, by decide⟩

/-- A hand of cards, `src/hand.rs`: a newtype over an array of 15
per-rank counts (`pub struct Hand(pub(crate) [u8; 15])`). -/
structure Hand where
  counts : Fin 15 → Nat

instance : DecidableEq Hand := fun a b =>
  match hall : (List.finRange 15).all (fun i => a.counts i == b.counts i) with
  | true => .isTrue (by
      cases a
      cases b
      refine congrArg Hand.mk (funext fun i => ?_)
      simpa using List.all_eq_true.mp hall i (List.mem_finRange i))
  | false => .isFalse (by
      intro he
      have htrue : (List.finRange 15).all
          (fun i => a.counts i == b.counts i) = true :=
        List.all_eq_true.mpr (fun i _ => by rw [he]; simp)
      rw [htrue] at hall
      exact Bool.noConfusion hall)

/-- The per-rank bound enforced by the `Hand` constructor: at most 4 of
each of the 13 non-joker ranks, at most 1 of each joker. -/
def boundOf (i : Fin 15) : Nat := if i.val < 13 then 4 else 1

/-- The fallible `Hand` constructor, `impl TryFrom<[u8; 15]> for Hand`
(`src/hand.rs` lines 8–24): scan ranks 0‥12 rejecting any count above
4, then ranks 13‥14 rejecting any count above 1; the error names the
first offending rank.  Both loops scan in ascending rank order, so the
first offending index overall is the first in `0‥14` order. -/
def tryFromArray (c : Fin 15 → Nat) : Except Rank Hand :=
  match (List.finRange 15).find? (fun i => decide (boundOf i < c i)) with
  | some i => .error i
  | none => .ok ⟨c⟩

/-- `Hand::to_array` (`src/hand.rs` lines 45–47). -/
def Hand.toArray (h : Hand) : Fin 15 → Nat := h.counts

/-- Validity invariant of a `Hand`: every count is within its bound.
Every `Hand` the crate exposes satisfies this by construction. -/
def validHand (h : Hand) : Prop := ∀ i, h.counts i ≤ boundOf i

instance (h : Hand) : Decidable (validHand h) := by
  unfold validHand; infer_instance

/-- `Hand::full_deck` (`src/hand.rs` lines 38–43): four of every
non-joker rank and one of each joker. -/
def fullDeck : Hand := ⟨fun i => if i.val < 13 then 4 else 1⟩

theorem validHand_fullDeck : validHand fullDeck := by
  intro i
  simp only [fullDeck, boundOf]
  split <;> simp

/-- Helper: `find?` over `finRange` returns `none` iff no index is bad. -/
theorem find?_finRange_eq_none {p : Fin 15 → Bool} :
    (List.finRange 15).find? p = none ↔ ∀ i : Fin 15, p i = false := by
  rw [List.find?_eq_none]
  constructor
  · intro h i
    have := h i (List.mem_finRange i)
    simpa using this
  · intro h i _
    simp [h i]

theorem tryFromArray_ok_iff (c : Fin 15 → Nat) :
    (∃ h, tryFromArray c = .ok h) ↔ ∀ i, c i ≤ boundOf i := by
  constructor
  · rintro ⟨h, hok⟩ i
    unfold tryFromArray at hok
    rcases hfind : (List.finRange 15).find? (fun i => decide (boundOf i < c i)) with _ | j
    · rw [find?_finRange_eq_none] at hfind
      have := hfind i
      simpa [Nat.not_lt] using this
    · rw [hfind] at hok
      simp at hok
  · intro hle
    refine ⟨⟨c⟩, ?_⟩
    unfold tryFromArray
    rcases hfind : (List.finRange 15).find? (fun i => decide (boundOf i < c i)) with _ | j
    · rfl
    · have := List.find?_some hfind
      simp only [decide_eq_true_eq] at this
      exact absurd (hle j) (Nat.not_le.mpr this)

theorem tryFromArray_ok_eq {c : Fin 15 → Nat} {h : Hand}
    (hok : tryFromArray c = .ok h) : h.counts = c := by
  unfold tryFromArray at hok
  rcases hfind : (List.finRange 15).find? (fun i => decide (boundOf i < c i)) with _ | j
  · rw [hfind] at hok
    simp only [Except.ok.injEq] at hok
    rw [← hok]
  · rw [hfind] at hok
    simp at hok

theorem tryFromArray_error_bad {c : Fin 15 → Nat} {i : Fin 15}
    (herr : tryFromArray c = .error i) : boundOf i < c i := by
  unfold tryFromArray at herr
  rcases hfind : (List.finRange 15).find? (fun i => decide (boundOf i < c i)) with _ | j
  · rw [hfind] at herr
    simp at herr
  · rw [hfind] at herr
    simp only [Except.error.injEq] at herr
    subst herr
    have := List.find?_some hfind
    simpa using this

/-- C3: the `Hand` constructor succeeds iff every non-joker count is at
most 4 and every joker count is at most 1; on success, `to_array`
round-trips the input exactly; on failure the reported rank really
violates its bound. -/
theorem tryFromArray_correct (c : Fin 15 → Nat) :
    ((∃ h, tryFromArray c = .ok h) ↔ ∀ i, c i ≤ boundOf i) ∧
    (∀ h, tryFromArray c = .ok h → h.toArray = c) ∧
    (∀ i, tryFromArray c = .error i → boundOf i < c i) :=
  ⟨tryFromArray_ok_iff c, fun _ hok => tryFromArray_ok_eq hok,
   fun _ herr => tryFromArray_error_bad herr⟩

/-- Witness for C3 at a concrete input: the full-deck array is accepted
and round-trips, by direct application of the theorem. -/
theorem tryFromArray_correct_witness :
    ∀ h, tryFromArray fullDeck.counts = .ok h → h.toArray = fullDeck.counts :=
  (tryFromArray_correct fullDeck.counts).2.1

/-- A standard Dou Dizhu play, `src/play.rs` lines 10–46.  The two
fixed-size kicker arrays `[Rank; 2]` are embedded as pairs. -/
inductive Play where
  | Solo (rank : Rank)
  | Chain (ranks : List Rank)
  | Pair (rank : Rank)
  | PairsChain (ranks : List Rank)
  | Trio (rank : Rank)
  | Airplane (ranks : List Rank)
  | TrioWithSolo (trio solo : Rank)
  | AirplaneWithSolos (airplane solos : List Rank)
  | TrioWithPair (trio pair : Rank)
  | AirplaneWithPairs (airplane pairs : List Rank)
  | Bomb (rank : Rank)
  | FourWithDualSolo (four : Rank) (dualSolo : Rank × Rank)
  | FourWithDualPair (four : Rank) (dualPair : Rank × Rank)
  | Rocket
  deriving DecidableEq

/-- Category of a play, `src/play.rs` lines 236–266. -/
inductive PlayKind where
  | Solo | Chain | Pair | PairsChain | Trio | Airplane
  | TrioWithSolo | AirplaneWithSolos | TrioWithPair | AirplaneWithPairs
  | Bomb | FourWithDualSolo | FourWithDualPair | Rocket
  deriving DecidableEq

/-- `Play::kind` (`src/play.rs` lines 58–75). -/
def Play.kind : Play → PlayKind
  | .Solo _ => .Solo
  | .Chain _ => .Chain
  | .Pair _ => .Pair
  | .PairsChain _ => .PairsChain
  | .Trio _ => .Trio
  | .Airplane _ => .Airplane
  | .TrioWithSolo _ _ => .TrioWithSolo
  | .AirplaneWithSolos _ _ => .AirplaneWithSolos
  | .TrioWithPair _ _ => .TrioWithPair
  | .AirplaneWithPairs _ _ => .AirplaneWithPairs
  | .Bomb _ => .Bomb
  | .FourWithDualSolo _ _ => .FourWithDualSolo
  | .FourWithDualPair _ _ => .FourWithDualPair
  | .Rocket => .Rocket

/-- All-zero count array. -/
def zeroCounts : Fin 15 → Nat := fun _ => 0

/-- Write count `k` at every rank of `l`, in list order (later writes
overwrite earlier ones, exactly as the assignments in the source). -/
def writeAll (c : Fin 15 → Nat) (l : List Rank) (k : Nat) : Fin 15 → Nat :=
  l.foldl (fun c r => Function.update c r k) c

theorem writeAll_apply (c : Fin 15 → Nat) (l : List Rank) (k : Nat) (i : Fin 15) :
    writeAll c l k i = if i ∈ l then k else c i := by
  induction l generalizing c with
  | nil => simp [writeAll]
  | cons a t ih =>
    simp only [writeAll, List.foldl_cons] at *
    rw [ih]
    by_cases hi : i ∈ t
    · simp [hi]
    · by_cases ha : i = a
      · subst ha; simp [hi, Function.update]
      · simp [hi, ha, Function.update]

/-- `Guard<Play>::to_hand` (`src/play.rs` lines 94–147): assign each
payload rank the multiplicity of its role, primal written first, kicker
second, zero elsewhere. -/
def Play.toHand : Play → Hand
  | .Solo r => ⟨writeAll zeroCounts [r] 1⟩
  | .Chain l => ⟨writeAll zeroCounts l 1⟩
  | .Pair r => ⟨writeAll zeroCounts [r] 2⟩
  | .PairsChain l => ⟨writeAll zeroCounts l 2⟩
  | .Trio r => ⟨writeAll zeroCounts [r] 3⟩
  | .Airplane l => ⟨writeAll zeroCounts l 3⟩
  | .TrioWithSolo t s => ⟨writeAll (writeAll zeroCounts [t] 3) [s] 1⟩
  | .AirplaneWithSolos a s => ⟨writeAll (writeAll zeroCounts a 3) s 1⟩
  | .TrioWithPair t p => ⟨writeAll (writeAll zeroCounts [t] 3) [p] 2⟩
  | .AirplaneWithPairs a p => ⟨writeAll (writeAll zeroCounts a 3) p 2⟩
  | .Bomb r => ⟨writeAll zeroCounts [r] 4⟩
  | .FourWithDualSolo f d => ⟨writeAll (writeAll zeroCounts [f] 4) [d.1, d.2] 1⟩
  | .FourWithDualPair f d => ⟨writeAll (writeAll zeroCounts [f] 4) [d.1, d.2] 2⟩
  | .Rocket => ⟨writeAll zeroCounts [Rank.blackJoker, Rank.redJoker] 1⟩

/-- The Bomb/Rocket strength level used for cross-kind comparison,
`src/play.rs` lines 158–167. -/
def Play.level : Play → Nat
  | .Bomb _ => 1
  | .Rocket => 2
  | _ => 0

/-- Comparison of two equal-kind vector payloads, `src/play.rs` lines
198–210: comparable only at equal length, then by the first element. -/
def vecCmp (l1 l2 : List Rank) : Option Ordering :=
  if l1.length = l2.length
  then some (compare (l1.headD ⟨0, by decide⟩).val (l2.headD ⟨0, by decide⟩).val)
  else none

/-- `impl PartialOrd for Guard<Play>` (`src/play.rs` lines 155–229).
Different kinds: compare Bomb/Rocket levels, incomparable when both
levels are zero.  Same kind: compare the primal field (first element
for vector payloads, at equal length only); kicker fields are never
inspected. -/
def Play.partialCmp (a b : Play) : Option Ordering :=
  if a.kind ≠ b.kind then
    if a.level = b.level then none
    else some (compare a.level b.level)
  else
    match a with
    | .Solo r1 =>
      match b with | .Solo r2 => some (compare r1.val r2.val) | _ => none
    | .Chain l1 =>
      match b with | .Chain l2 => vecCmp l1 l2 | _ => none
    | .Pair r1 =>
      match b with | .Pair r2 => some (compare r1.val r2.val) | _ => none
    | .PairsChain l1 =>
      match b with | .PairsChain l2 => vecCmp l1 l2 | _ => none
    | .Trio r1 =>
      match b with | .Trio r2 => some (compare r1.val r2.val) | _ => none
    | .Airplane l1 =>
      match b with | .Airplane l2 => vecCmp l1 l2 | _ => none
    | .TrioWithSolo t1 _ =>
      match b with | .TrioWithSolo t2 _ => some (compare t1.val t2.val) | _ => none
    | .AirplaneWithSolos a1 _ =>
      match b with | .AirplaneWithSolos a2 _ => vecCmp a1 a2 | _ => none
    | .TrioWithPair t1 _ =>
      match b with | .TrioWithPair t2 _ => some (compare t1.val t2.val) | _ => none
    | .AirplaneWithPairs a1 _ =>
      match b with | .AirplaneWithPairs a2 _ => vecCmp a1 a2 | _ => none
    | .Bomb r1 =>
      match b with | .Bomb r2 => some (compare r1.val r2.val) | _ => none
    | .FourWithDualSolo f1 _ =>
      match b with | .FourWithDualSolo f2 _ => some (compare f1.val f2.val) | _ => none
    | .FourWithDualPair f1 _ =>
      match b with | .FourWithDualPair f2 _ => some (compare f1.val f2.val) | _ => none
    | .Rocket =>
      match b with | .Rocket => some .eq | _ => none

/-- `impl PartialEq for Guard<Play>` (`src/play.rs` lines 149–153):
equality is defined through the partial comparison. -/
def playEq (a b : Play) : Bool :=
  match Play.partialCmp a b with
  | some .eq => true
  | _ => false

/-- The primal payload of a play: the field inspected by the same-kind
comparison (Rocket implicitly carries the two jokers). -/
def Play.primal : Play → List Rank
  | .Solo r => [r]
  | .Chain l => l
  | .Pair r => [r]
  | .PairsChain l => l
  | .Trio r => [r]
  | .Airplane l => l
  | .TrioWithSolo t _ => [t]
  | .AirplaneWithSolos a _ => a
  | .TrioWithPair t _ => [t]
  | .AirplaneWithPairs a _ => a
  | .Bomb r => [r]
  | .FourWithDualSolo f _ => [f]
  | .FourWithDualPair f _ => [f]
  | .Rocket => [Rank.blackJoker, Rank.redJoker]

/-- C6: Rocket beats every other play; a Bomb beats every play that is
neither Bomb nor Rocket; two Bombs compare by rank; two plays of
different kinds, neither Bomb nor Rocket, are incomparable. -/
theorem playCmp_bomb_rocket_levels :
    (∀ b : Play, b.kind ≠ .Rocket → Play.partialCmp .Rocket b = some .gt) ∧
    (∀ (r : Rank) (b : Play), b.kind ≠ .Bomb → b.kind ≠ .Rocket →
      Play.partialCmp (.Bomb r) b = some .gt) ∧
    (∀ r1 r2 : Rank,
      Play.partialCmp (.Bomb r1) (.Bomb r2) = some (compare r1.val r2.val)) ∧
    (∀ a b : Play, a.kind ≠ b.kind → a.kind ≠ .Bomb → a.kind ≠ .Rocket →
      b.kind ≠ .Bomb → b.kind ≠ .Rocket → Play.partialCmp a b = none) := by
  refine ⟨?_, ?_, ?_, ?_⟩
  · intro b hb
    cases b <;> first
      | rfl
      | exact absurd rfl hb
  · intro r b hb1 hb2
    cases b <;> first
      | rfl
      | exact absurd rfl hb1
      | exact absurd rfl hb2
  · intro r1 r2
    rfl
  · intro a b hab ha1 ha2 hb1 hb2
    cases a <;> cases b <;> first
      | rfl
      | exact absurd rfl hab
      | exact absurd rfl ha1
      | exact absurd rfl ha2
      | exact absurd rfl hb1
      | exact absurd rfl hb2

/-- Witness for C6: Rocket beats a concrete Bomb, a concrete Bomb beats
a concrete Solo, and a Solo is incomparable with a Pair. -/
theorem playCmp_bomb_rocket_levels_witness :
    Play.partialCmp .Rocket (.Bomb ⟨0, by decide⟩) = some .gt ∧
    Play.partialCmp (.Bomb ⟨0, by decide⟩) (.Solo ⟨5, by decide⟩) = some .gt ∧
    Play.partialCmp (.Solo ⟨5, by decide⟩) (.Pair ⟨5, by decide⟩) = none :=
  ⟨playCmp_bomb_rocket_levels.1 _ (by decide),
   playCmp_bomb_rocket_levels.2.1 _ _ (by decide) (by decide),
   playCmp_bomb_rocket_levels.2.2.2 _ _ (by decide) (by decide) (by decide)
     (by decide) (by decide)⟩

/-- C10: same-kind comparison and equality depend only on the primal
payload; whenever the primals coincide, the plays compare `Equal` and
are equal, regardless of kicker fields. -/
theorem playCmp_ignores_kickers (a b : Play) (hk : a.kind = b.kind)
    (hp : a.primal = b.primal) :
    Play.partialCmp a b = some .eq ∧ playEq a b = true := by
  have hcmp : Play.partialCmp a b = some .eq := by
    cases a <;> cases b <;>
      simp_all [Play.kind, Play.primal, Play.partialCmp, vecCmp, Nat.compare_eq_eq]
  exact ⟨hcmp, by simp [playEq, hcmp]⟩

/-- Witness for C10: two TrioWithSolo plays with the same trio but
different solo kickers compare `Equal` and are equal. -/
theorem playCmp_ignores_kickers_witness :
    Play.partialCmp (.TrioWithSolo ⟨3, by decide⟩ ⟨0, by decide⟩)
      (.TrioWithSolo ⟨3, by decide⟩ ⟨7, by decide⟩) = some .eq ∧
    playEq (.TrioWithSolo ⟨3, by decide⟩ ⟨0, by decide⟩)
      (.TrioWithSolo ⟨3, by decide⟩ ⟨7, by decide⟩) = true :=
  playCmp_ignores_kickers _ _ (by decide) (by decide)

/-- Consecutive run of ranks: each element is exactly one strength step
above its predecessor. -/
def consecRun : List Rank → Prop
  | [] => True
  | [_] => True
  | a :: b :: t => b.val = a.val + 1 ∧ consecRun (b :: t)

theorem consecRun_iff_chain' :
    ∀ l : List Rank,
      consecRun l ↔ List.Chain' (fun a b : Rank => b.val = a.val + 1) l
  | [] => by simp [consecRun]
  | [a] => by simp [consecRun]
  | a :: b :: t => by
    rw [consecRun, List.chain'_cons, consecRun_iff_chain' (b :: t)]

/-- Every rank of the list is strictly below Two (chains, pair chains
and airplanes can never include Two or a joker). -/
def belowTwo (l : List Rank) : Prop := ∀ r ∈ l, r.val < 12

/-- Strictly ascending rank list. -/
def sortedAsc (l : List Rank) : Prop := List.Pairwise (· < ·) l

def decConsecRun : (l : List Rank) → Decidable (consecRun l)
  | [] => .isTrue trivial
  | [_] => .isTrue trivial
  | a :: b :: t =>
    match decConsecRun (b :: t) with
    | .isTrue h =>
      if hab : b.val = a.val + 1 then .isTrue ⟨hab, h⟩
      else .isFalse (fun hc => hab hc.1)
    | .isFalse h => .isFalse (fun hc => h hc.2)

instance (l : List Rank) : Decidable (consecRun l) := decConsecRun l

instance (l : List Rank) : Decidable (belowTwo l) :=
  inferInstanceAs (Decidable (∀ r ∈ l, r.val < 12))

instance (l : List Rank) : Decidable (sortedAsc l) :=
  inferInstanceAs (Decidable (List.Pairwise _ l))

/-- Well-formedness of a standard play: the payload satisfies the
variant's shape constraints (sorted, distinct, consecutive where
required, length bounds) and its card multiset is a legal standalone
play (rank bounds respected, no concealed Rocket among kickers). -/
def standardPlay : Play → Prop
  | .Solo _ => True
  | .Chain l => 5 ≤ l.length ∧ consecRun l ∧ belowTwo l
  | .Pair r => r.val < 13
  | .PairsChain l => 3 ≤ l.length ∧ consecRun l ∧ belowTwo l
  | .Trio r => r.val < 13
  | .Airplane l => 2 ≤ l.length ∧ consecRun l ∧ belowTwo l
  | .TrioWithSolo t s => t.val < 13 ∧ t ≠ s
  | .AirplaneWithSolos a s =>
      2 ≤ a.length ∧ consecRun a ∧ belowTwo a ∧
      s.length = a.length ∧ sortedAsc s ∧ (∀ r ∈ s, r ∉ a) ∧
      ¬(Rank.blackJoker ∈ s ∧ Rank.redJoker ∈ s)
  | .TrioWithPair t p => t.val < 13 ∧ p.val < 13 ∧ t ≠ p
  | .AirplaneWithPairs a p =>
      2 ≤ a.length ∧ consecRun a ∧ belowTwo a ∧
      p.length = a.length ∧ sortedAsc p ∧ (∀ r ∈ p, r.val < 13) ∧
      (∀ r ∈ p, r ∉ a)
  | .Bomb r => r.val < 13
  | .FourWithDualSolo f d =>
      f.val < 13 ∧ d.1 < d.2 ∧ d.1 ≠ f ∧ d.2 ≠ f ∧
      ¬(d.1 = Rank.blackJoker ∧ d.2 = Rank.redJoker)
  | .FourWithDualPair f d =>
      f.val < 13 ∧ d.1 < d.2 ∧ d.1.val < 13 ∧ d.2.val < 13 ∧ d.1 ≠ f ∧ d.2 ≠ f
  | .Rocket => True

instance : DecidablePred standardPlay := fun p =>
  match p with
  | .Solo _ => inferInstanceAs (Decidable True)
  | .Chain l => inferInstanceAs (Decidable (5 ≤ l.length ∧ consecRun l ∧ belowTwo l))
  | .Pair r => inferInstanceAs (Decidable (r.val < 13))
  | .PairsChain l => inferInstanceAs (Decidable (3 ≤ l.length ∧ consecRun l ∧ belowTwo l))
  | .Trio r => inferInstanceAs (Decidable (r.val < 13))
  | .Airplane l => inferInstanceAs (Decidable (2 ≤ l.length ∧ consecRun l ∧ belowTwo l))
  | .TrioWithSolo t s => inferInstanceAs (Decidable (t.val < 13 ∧ t ≠ s))
  | .AirplaneWithSolos a s =>
    inferInstanceAs (Decidable (2 ≤ a.length ∧ consecRun a ∧ belowTwo a ∧
      s.length = a.length ∧ sortedAsc s ∧ (∀ r ∈ s, r ∉ a) ∧
      ¬(Rank.blackJoker ∈ s ∧ Rank.redJoker ∈ s)))
  | .TrioWithPair t p => inferInstanceAs (Decidable (t.val < 13 ∧ p.val < 13 ∧ t ≠ p))
  | .AirplaneWithPairs a p =>
    inferInstanceAs (Decidable (2 ≤ a.length ∧ consecRun a ∧ belowTwo a ∧
      p.length = a.length ∧ sortedAsc p ∧ (∀ r ∈ p, r.val < 13) ∧
      (∀ r ∈ p, r ∉ a)))
  | .Bomb r => inferInstanceAs (Decidable (r.val < 13))
  | .FourWithDualSolo f d =>
    inferInstanceAs (Decidable (f.val < 13 ∧ d.1 < d.2 ∧ d.1 ≠ f ∧ d.2 ≠ f ∧
      ¬(d.1 = Rank.blackJoker ∧ d.2 = Rank.redJoker)))
  | .FourWithDualPair f d =>
    inferInstanceAs (Decidable (f.val < 13 ∧ d.1 < d.2 ∧ d.1.val < 13 ∧
      d.2.val < 13 ∧ d.1 ≠ f ∧ d.2 ≠ f))
  | .Rocket => inferInstanceAs (Decidable True)

theorem consecRun_pairwise {l : List Rank} (h : consecRun l) :
    List.Pairwise (· < ·) l := by
  have h1 := (consecRun_iff_chain' l).mp h
  have h2 : List.Chain' (· < · : Rank → Rank → Prop) l :=
    h1.imp (fun {a b} hab => by
      have := a.isLt
      have := b.isLt
      simp only [Fin.lt_def]
      omega)
  exact List.chain'_iff_pairwise.mp h2

/-- The lowest-strength rank of a list (RedJoker, the maximum rank, as
the neutral base of the fold). -/
def listMinRank (l : List Rank) : Rank := l.foldr min Rank.redJoker

theorem listMinRank_cons_sorted {a : Rank} {t : List Rank}
    (h : List.Pairwise (· < ·) (a :: t)) : listMinRank (a :: t) = a := by
  induction t generalizing a with
  | nil =>
    simp only [listMinRank, List.foldr]
    exact min_eq_left (by
      rw [Fin.le_def]
      have := a.isLt
      simp [Rank.redJoker]
      omega)
  | cons b t' ih =>
    have hbt : List.Pairwise (· < ·) (b :: t') := h.of_cons
    have hab : a < b := (List.pairwise_cons.mp h).1 b (by simp)
    have : listMinRank (b :: t') = b := ih hbt
    simp only [listMinRank, List.foldr] at this ⊢
    rw [this]
    exact min_eq_left (le_of_lt hab)

theorem headD_eq_listMinRank {l : List Rank} (hs : List.Pairwise (· < ·) l)
    (hn : l ≠ []) (d : Rank) : l.headD d = listMinRank l := by
  cases l with
  | nil => exact absurd rfl hn
  | cons a t => simp [listMinRank_cons_sorted hs]

theorem vecCmp_sorted (l1 l2 : List Rank) (h1 : List.Pairwise (· < ·) l1)
    (h2 : List.Pairwise (· < ·) l2) (n1 : l1 ≠ []) (n2 : l2 ≠ []) :
    vecCmp l1 l2 =
      if l1.length = l2.length
      then some (compare (listMinRank l1).val (listMinRank l2).val)
      else none := by
  unfold vecCmp
  rw [headD_eq_listMinRank h1 n1, headD_eq_listMinRank h2 n2]

theorem primal_sorted (p : Play) (hp : standardPlay p) :
    List.Pairwise (· < ·) (Play.primal p) := by
  cases p <;> simp only [Play.primal] <;>
    first
      | exact consecRun_pairwise hp.2.1
      | exact consecRun_pairwise hp.2.2.1
      | decide
      | simp

theorem primal_ne_nil (p : Play) (hp : standardPlay p) : Play.primal p ≠ [] := by
  cases p <;> simp only [Play.primal] <;>
    first
      | exact List.ne_nil_of_length_pos (by
          have := hp.1
          omega)
      | simp

/-- On equal kinds, the source comparison is exactly the comparison of
the primal payloads as vectors (equal length, then first element). -/
theorem partialCmp_eq_vecCmp_primal (a b : Play) (hk : a.kind = b.kind) :
    Play.partialCmp a b = vecCmp (Play.primal a) (Play.primal b) := by
  cases a <;> cases b <;>
    first
      | exact PlayKind.noConfusion hk
      | (simp [Play.partialCmp, Play.kind, Play.primal, vecCmp] <;> decide)

/-- C7: two validated plays of the same kind compare by the
lowest-strength rank of their primal payloads, and only when the
payload lengths agree; same-kind plays of different payload lengths
are incomparable. -/
theorem playCmp_same_kind_lowest (a b : Play) (ha : standardPlay a)
    (hb : standardPlay b) (hk : a.kind = b.kind) :
    Play.partialCmp a b =
      if (Play.primal a).length = (Play.primal b).length
      then some (compare (listMinRank (Play.primal a)).val
                         (listMinRank (Play.primal b)).val)
      else none := by
  rw [partialCmp_eq_vecCmp_primal a b hk]
  exact vecCmp_sorted _ _ (primal_sorted a ha) (primal_sorted b hb)
    (primal_ne_nil a ha) (primal_ne_nil b hb)

/-- Witness for C7: two concrete Chains of different lengths are
incomparable, and two Pairs compare by rank, via the theorem. -/
theorem playCmp_same_kind_lowest_witness :
    Play.partialCmp
      (.Chain [⟨0, by decide⟩, ⟨1, by decide⟩, ⟨2, by decide⟩, ⟨3, by decide⟩,
               ⟨4, by decide⟩])
      (.Chain [⟨0, by decide⟩, ⟨1, by decide⟩, ⟨2, by decide⟩, ⟨3, by decide⟩,
               ⟨4, by decide⟩, ⟨5, by decide⟩]) = none := by
  have := playCmp_same_kind_lowest
    (.Chain [⟨0, by decide⟩, ⟨1, by decide⟩, ⟨2, by decide⟩, ⟨3, by decide⟩,
             ⟨4, by decide⟩])
    (.Chain [⟨0, by decide⟩, ⟨1, by decide⟩, ⟨2, by decide⟩, ⟨3, by decide⟩,
             ⟨4, by decide⟩, ⟨5, by decide⟩])
    (by decide) (by decide) (by decide)
  simpa using this

/-- `u8::wrapping_sub`, for operands below 256. -/
def wrapSub (a b : Nat) : Nat := (a + 256 - b) % 256

/-- `unchecked_add` of two hands (`src/core/ops.rs` lines 32–41):
pointwise sum. -/
def Hand.uncheckedAdd (a b : Hand) : Hand := ⟨fun i => a.counts i + b.counts i⟩

/-- `unchecked_sub` of two hands (`src/core/ops.rs` lines 43–52):
pointwise wrapping difference. -/
def Hand.uncheckedSub (a b : Hand) : Hand :=
  ⟨fun i => wrapSub (a.counts i) (b.counts i)⟩

/-- Add count `k` at every rank of `l`, sequentially (the `+=` updates
of `unchecked_add`, `src/core/ops.rs` lines 54–109). -/
def addAll (c : Fin 15 → Nat) (l : List Rank) (k : Nat) : Fin 15 → Nat :=
  l.foldl (fun c r => Function.update c r (c r + k)) c

/-- Wrapping-subtract count `k` at every rank of `l`, sequentially (the
`wrapping_sub` updates of `unchecked_sub`, `src/core/ops.rs` lines
111–166). -/
def subAll (c : Fin 15 → Nat) (l : List Rank) (k : Nat) : Fin 15 → Nat :=
  l.foldl (fun c r => Function.update c r (wrapSub (c r) k)) c

/-- `unchecked_add` of a play into a hand: each payload rank adds the
multiplicity of its role, primal first, kicker second. -/
def Hand.uncheckedAddPlay (h : Hand) (p : Play) : Hand :=
  match p with
  | .Solo r => ⟨addAll h.counts [r] 1⟩
  | .Chain l => ⟨addAll h.counts l 1⟩
  | .Pair r => ⟨addAll h.counts [r] 2⟩
  | .PairsChain l => ⟨addAll h.counts l 2⟩
  | .Trio r => ⟨addAll h.counts [r] 3⟩
  | .Airplane l => ⟨addAll h.counts l 3⟩
  | .TrioWithSolo t s => ⟨addAll (addAll h.counts [t] 3) [s] 1⟩
  | .AirplaneWithSolos a s => ⟨addAll (addAll h.counts a 3) s 1⟩
  | .TrioWithPair t p => ⟨addAll (addAll h.counts [t] 3) [p] 2⟩
  | .AirplaneWithPairs a p => ⟨addAll (addAll h.counts a 3) p 2⟩
  | .Bomb r => ⟨addAll h.counts [r] 4⟩
  | .FourWithDualSolo f d => ⟨addAll (addAll h.counts [f] 4) [d.1, d.2] 1⟩
  | .FourWithDualPair f d => ⟨addAll (addAll h.counts [f] 4) [d.1, d.2] 2⟩
  | .Rocket => ⟨addAll h.counts [Rank.blackJoker, Rank.redJoker] 1⟩

/-- `unchecked_sub` of a play out of a hand: wrapping subtraction of
each role multiplicity. -/
def Hand.uncheckedSubPlay (h : Hand) (p : Play) : Hand :=
  match p with
  | .Solo r => ⟨subAll h.counts [r] 1⟩
  | .Chain l => ⟨subAll h.counts l 1⟩
  | .Pair r => ⟨subAll h.counts [r] 2⟩
  | .PairsChain l => ⟨subAll h.counts l 2⟩
  | .Trio r => ⟨subAll h.counts [r] 3⟩
  | .Airplane l => ⟨subAll h.counts l 3⟩
  | .TrioWithSolo t s => ⟨subAll (subAll h.counts [t] 3) [s] 1⟩
  | .AirplaneWithSolos a s => ⟨subAll (subAll h.counts a 3) s 1⟩
  | .TrioWithPair t p => ⟨subAll (subAll h.counts [t] 3) [p] 2⟩
  | .AirplaneWithPairs a p => ⟨subAll (subAll h.counts a 3) p 2⟩
  | .Bomb r => ⟨subAll h.counts [r] 4⟩
  | .FourWithDualSolo f d => ⟨subAll (subAll h.counts [f] 4) [d.1, d.2] 1⟩
  | .FourWithDualPair f d => ⟨subAll (subAll h.counts [f] 4) [d.1, d.2] 2⟩
  | .Rocket => ⟨subAll h.counts [Rank.blackJoker, Rank.redJoker] 1⟩

/-- `Result::ok`: drop the error of a fallible construction. -/
def exceptToOption : Except Rank Hand → Option Hand
  | .ok h => some h
  | .error _ => none

/-- Checked `Add for Hand` (`src/core/ops.rs` lines 168–174). -/
def Hand.add (a b : Hand) : Option Hand :=
  exceptToOption (tryFromArray (a.uncheckedAdd b).counts)

/-- Checked `Sub for Hand` (`src/core/ops.rs` lines 224–230). -/
def Hand.sub (a b : Hand) : Option Hand :=
  exceptToOption (tryFromArray (a.uncheckedSub b).counts)

/-- Checked `Add<&Guard<Play>> for Hand` (`src/core/ops.rs` lines 176–182). -/
def Hand.addPlay (a : Hand) (p : Play) : Option Hand :=
  exceptToOption (tryFromArray (a.uncheckedAddPlay p).counts)

/-- Checked `Sub<&Guard<Play>> for Hand` (`src/core/ops.rs` lines 232–238). -/
def Hand.subPlay (a : Hand) (p : Play) : Option Hand :=
  exceptToOption (tryFromArray (a.uncheckedSubPlay p).counts)

theorem addAll_apply_nodup (c : Fin 15 → Nat) (l : List Rank) (k : Nat)
    (i : Fin 15) (hnd : l.Nodup) :
    addAll c l k i = c i + (if i ∈ l then k else 0) := by
  induction l generalizing c with
  | nil => simp [addAll]
  | cons a t ih =>
    have hat : a ∉ t := (List.nodup_cons.mp hnd).1
    have ht : t.Nodup := (List.nodup_cons.mp hnd).2
    simp only [addAll, List.foldl_cons] at *
    rw [ih _ ht]
    by_cases hia : i = a
    · subst hia
      simp [hat, Function.update]
    · by_cases hit : i ∈ t <;> simp [hia, hit, Function.update]

theorem subAll_apply_nodup (c : Fin 15 → Nat) (l : List Rank) (k : Nat)
    (i : Fin 15) (hnd : l.Nodup) :
    subAll c l k i = if i ∈ l then wrapSub (c i) k else c i := by
  induction l generalizing c with
  | nil => simp [subAll]
  | cons a t ih =>
    have hat : a ∉ t := (List.nodup_cons.mp hnd).1
    have ht : t.Nodup := (List.nodup_cons.mp hnd).2
    simp only [subAll, List.foldl_cons] at *
    rw [ih _ ht]
    by_cases hia : i = a
    · subst hia
      simp [hat, Function.update]
    · by_cases hit : i ∈ t <;> simp [hia, hit, Function.update]

theorem add1_eq (c : Fin 15 → Nat) (l : List Rank) (k : Nat) (i : Fin 15)
    (h : l.Nodup) :
    addAll c l k i = c i + writeAll zeroCounts l k i := by
  rw [addAll_apply_nodup _ _ _ _ h, writeAll_apply]
  by_cases hi : i ∈ l <;> simp [hi, zeroCounts]

theorem add2_eq (c : Fin 15 → Nat) (l1 l2 : List Rank) (k1 k2 : Nat)
    (i : Fin 15) (h1 : l1.Nodup) (h2 : l2.Nodup) (hd : ∀ x ∈ l2, x ∉ l1) :
    addAll (addAll c l1 k1) l2 k2 i =
      c i + writeAll (writeAll zeroCounts l1 k1) l2 k2 i := by
  rw [addAll_apply_nodup _ _ _ _ h2, addAll_apply_nodup _ _ _ _ h1,
      writeAll_apply, writeAll_apply]
  by_cases hi2 : i ∈ l2
  · have hi1 : i ∉ l1 := hd i hi2
    simp [hi2, hi1]
  · by_cases hi1 : i ∈ l1 <;> simp [hi2, hi1, zeroCounts]

theorem wrapSub_zero {a : Nat} (ha : a < 256) : wrapSub a 0 = a := by
  unfold wrapSub
  omega

theorem sub1_eq (c : Fin 15 → Nat) (l : List Rank) (k : Nat) (i : Fin 15)
    (h : l.Nodup) (hc : c i < 256) :
    subAll c l k i = wrapSub (c i) (writeAll zeroCounts l k i) := by
  rw [subAll_apply_nodup _ _ _ _ h, writeAll_apply]
  by_cases hi : i ∈ l
  · simp [hi]
  · simp [hi, zeroCounts, wrapSub_zero hc]

theorem sub2_eq (c : Fin 15 → Nat) (l1 l2 : List Rank) (k1 k2 : Nat)
    (i : Fin 15) (h1 : l1.Nodup) (h2 : l2.Nodup) (hd : ∀ x ∈ l2, x ∉ l1)
    (hc : c i < 256) :
    subAll (subAll c l1 k1) l2 k2 i =
      wrapSub (c i) (writeAll (writeAll zeroCounts l1 k1) l2 k2 i) := by
  rw [subAll_apply_nodup _ _ _ _ h2, subAll_apply_nodup _ _ _ _ h1,
      writeAll_apply, writeAll_apply]
  by_cases hi2 : i ∈ l2
  · have hi1 : i ∉ l1 := hd i hi2
    simp [hi2, hi1]
  · by_cases hi1 : i ∈ l1 <;> simp [hi2, hi1, zeroCounts, wrapSub_zero hc]

theorem sortedAsc_nodup {l : List Rank} (h : List.Pairwise (· < ·) l) :
    l.Nodup :=
  h.imp (fun hlt => ne_of_lt hlt)

theorem consecRun_nodup {l : List Rank} (h : consecRun l) : l.Nodup :=
  sortedAsc_nodup (consecRun_pairwise h)

theorem uncheckedAddPlay_apply (h : Hand) (p : Play) (hp : standardPlay p)
    (i : Fin 15) :
    (h.uncheckedAddPlay p).counts i = h.counts i + (Play.toHand p).counts i := by
  cases p with
  | Solo r => exact add1_eq _ _ _ _ (by simp)
  | Chain l => exact add1_eq _ _ _ _ (consecRun_nodup hp.2.1)
  | Pair r => exact add1_eq _ _ _ _ (by simp)
  | PairsChain l => exact add1_eq _ _ _ _ (consecRun_nodup hp.2.1)
  | Trio r => exact add1_eq _ _ _ _ (by simp)
  | Airplane l => exact add1_eq _ _ _ _ (consecRun_nodup hp.2.1)
  | TrioWithSolo t s =>
    exact add2_eq _ _ _ _ _ _ (by simp) (by simp)
      (by
        intro x hx
        simp only [List.mem_singleton] at hx
        subst hx
        simp only [List.mem_singleton]
        exact fun hst => hp.2 hst.symm)
  | AirplaneWithSolos a s =>
    exact add2_eq _ _ _ _ _ _ (consecRun_nodup hp.2.1)
      (sortedAsc_nodup hp.2.2.2.2.1) hp.2.2.2.2.2.1
  | TrioWithPair t q =>
    exact add2_eq _ _ _ _ _ _ (by simp) (by simp)
      (by
        intro x hx
        simp only [List.mem_singleton] at hx
        subst hx
        simp only [List.mem_singleton]
        exact fun hst => hp.2.2 hst.symm)
  | AirplaneWithPairs a q =>
    exact add2_eq _ _ _ _ _ _ (consecRun_nodup hp.2.1)
      (sortedAsc_nodup hp.2.2.2.2.1) hp.2.2.2.2.2.2
  | Bomb r => exact add1_eq _ _ _ _ (by simp)
  | FourWithDualSolo f d =>
    exact add2_eq _ _ _ _ _ _ (by simp)
      (by simp [ne_of_lt hp.2.1])
      (by
        intro x hx
        simp only [List.mem_cons, List.not_mem_nil, or_false] at hx ⊢
        rcases hx with hx | hx <;> subst hx
        · simpa using hp.2.2.1
        · simpa using hp.2.2.2.1)
  | FourWithDualPair f d =>
    exact add2_eq _ _ _ _ _ _ (by simp)
      (by simp [ne_of_lt hp.2.1])
      (by
        intro x hx
        simp only [List.mem_cons, List.not_mem_nil, or_false] at hx ⊢
        rcases hx with hx | hx <;> subst hx
        · simpa using hp.2.2.2.2.1
        · simpa using hp.2.2.2.2.2)
  | Rocket => exact add1_eq _ _ _ _ (by decide)

theorem uncheckedSubPlay_apply (h : Hand) (hv : validHand h) (p : Play)
    (hp : standardPlay p) (i : Fin 15) :
    (h.uncheckedSubPlay p).counts i =
      wrapSub (h.counts i) ((Play.toHand p).counts i) := by
  have hc : h.counts i < 256 := by
    have := hv i
    unfold boundOf at this
    split at this <;> omega
  cases p with
  | Solo r => exact sub1_eq _ _ _ _ (by simp) hc
  | Chain l => exact sub1_eq _ _ _ _ (consecRun_nodup hp.2.1) hc
  | Pair r => exact sub1_eq _ _ _ _ (by simp) hc
  | PairsChain l => exact sub1_eq _ _ _ _ (consecRun_nodup hp.2.1) hc
  | Trio r => exact sub1_eq _ _ _ _ (by simp) hc
  | Airplane l => exact sub1_eq _ _ _ _ (consecRun_nodup hp.2.1) hc
  | TrioWithSolo t s =>
    exact sub2_eq _ _ _ _ _ _ (by simp) (by simp)
      (by
        intro x hx
        simp only [List.mem_singleton] at hx
        subst hx
        simp only [List.mem_singleton]
        exact fun hst => hp.2 hst.symm) hc
  | AirplaneWithSolos a s =>
    exact sub2_eq _ _ _ _ _ _ (consecRun_nodup hp.2.1)
      (sortedAsc_nodup hp.2.2.2.2.1) hp.2.2.2.2.2.1 hc
  | TrioWithPair t q =>
    exact sub2_eq _ _ _ _ _ _ (by simp) (by simp)
      (by
        intro x hx
        simp only [List.mem_singleton] at hx
        subst hx
        simp only [List.mem_singleton]
        exact fun hst => hp.2.2 hst.symm) hc
  | AirplaneWithPairs a q =>
    exact sub2_eq _ _ _ _ _ _ (consecRun_nodup hp.2.1)
      (sortedAsc_nodup hp.2.2.2.2.1) hp.2.2.2.2.2.2 hc
  | Bomb r => exact sub1_eq _ _ _ _ (by simp) hc
  | FourWithDualSolo f d =>
    exact sub2_eq _ _ _ _ _ _ (by simp)
      (by simp [ne_of_lt hp.2.1])
      (by
        intro x hx
        simp only [List.mem_cons, List.not_mem_nil, or_false] at hx ⊢
        rcases hx with hx | hx <;> subst hx
        · simpa using hp.2.2.1
        · simpa using hp.2.2.2.1) hc
  | FourWithDualPair f d =>
    exact sub2_eq _ _ _ _ _ _ (by simp)
      (by simp [ne_of_lt hp.2.1])
      (by
        intro x hx
        simp only [List.mem_cons, List.not_mem_nil, or_false] at hx ⊢
        rcases hx with hx | hx <;> subst hx
        · simpa using hp.2.2.2.2.1
        · simpa using hp.2.2.2.2.2) hc
  | Rocket => exact sub1_eq _ _ _ _ (by decide) hc

theorem toHand_counts_le (p : Play) (i : Fin 15) :
    (Play.toHand p).counts i ≤ 4 := by
  cases p <;>
    simp only [Play.toHand, writeAll_apply, zeroCounts] <;>
    split <;> first | omega | (split <;> omega)

theorem exceptToOption_none_iff (c : Fin 15 → Nat) :
    exceptToOption (tryFromArray c) = none ↔ ∃ i, boundOf i < c i := by
  rcases htf : tryFromArray c with i | h
  · simp only [exceptToOption, true_iff]
    exact ⟨i, tryFromArray_error_bad htf⟩
  · simp only [exceptToOption]
    constructor
    · intro hcon
      exact absurd hcon (by simp)
    · rintro ⟨i, hbad⟩
      have := (tryFromArray_ok_iff c).mp ⟨h, htf⟩ i
      omega

theorem exceptToOption_some_eq {c : Fin 15 → Nat} {h : Hand}
    (hs : exceptToOption (tryFromArray c) = some h) : h.counts = c := by
  rcases htf : tryFromArray c with i | h'
  · rw [htf] at hs
    simp [exceptToOption] at hs
  · rw [htf] at hs
    simp only [exceptToOption, Option.some.injEq] at hs
    subst hs
    exact tryFromArray_ok_eq htf

theorem wrapSub_bad_iff {x y bnd : Nat} (hx : x ≤ bnd) (hy : y ≤ 4)
    (hb : bnd ≤ 4) : bnd < wrapSub x y ↔ x < y := by
  unfold wrapSub
  omega

theorem wrapSub_eq_sub {x y bnd : Nat} (hx : x ≤ bnd) (hy : y ≤ 4)
    (hb : bnd ≤ 4) (hgood : wrapSub x y ≤ bnd) : wrapSub x y = x - y := by
  unfold wrapSub at *
  omega

theorem boundOf_le (i : Fin 15) : boundOf i ≤ 4 := by
  unfold boundOf
  split <;> omega

/-- C4: checked subtraction (of a hand or of a validated play) is `None`
exactly when some rank would underflow, checked addition is `None`
exactly when some rank would exceed its bound, and any `Some` result is
the exact pointwise difference (resp. sum). -/
theorem handArith_checked (a b : Hand) (p : Play) (hva : validHand a)
    (hvb : validHand b) (hp : standardPlay p) :
    (Hand.sub a b = none ↔ ∃ i, a.counts i < b.counts i) ∧
    (∀ h, Hand.sub a b = some h → ∀ i, h.counts i = a.counts i - b.counts i) ∧
    (Hand.add a b = none ↔ ∃ i, boundOf i < a.counts i + b.counts i) ∧
    (∀ h, Hand.add a b = some h → ∀ i, h.counts i = a.counts i + b.counts i) ∧
    (Hand.subPlay a p = none ↔ ∃ i, a.counts i < (Play.toHand p).counts i) ∧
    (∀ h, Hand.subPlay a p = some h →
      ∀ i, h.counts i = a.counts i - (Play.toHand p).counts i) ∧
    (Hand.addPlay a p = none ↔
      ∃ i, boundOf i < a.counts i + (Play.toHand p).counts i) ∧
    (∀ h, Hand.addPlay a p = some h →
      ∀ i, h.counts i = a.counts i + (Play.toHand p).counts i) := by
  refine ⟨?_, ?_, ?_, ?_, ?_, ?_, ?_, ?_⟩
  · rw [Hand.sub, exceptToOption_none_iff]
    constructor
    · rintro ⟨i, hbad⟩
      exact ⟨i, (wrapSub_bad_iff (hva i) (le_trans (hvb i) (boundOf_le i))
        (boundOf_le i)).mp hbad⟩
    · rintro ⟨i, hlt⟩
      exact ⟨i, (wrapSub_bad_iff (hva i) (le_trans (hvb i) (boundOf_le i))
        (boundOf_le i)).mpr hlt⟩
  · intro h hs i
    have hc := exceptToOption_some_eq hs
    have hgood : ∀ j, (a.uncheckedSub b).counts j ≤ boundOf j := by
      intro j
      by_contra hbad
      have : Hand.sub a b = none := by
        rw [Hand.sub, exceptToOption_none_iff]
        exact ⟨j, by omega⟩
      rw [this] at hs
      exact Option.noConfusion hs
    rw [hc]
    exact wrapSub_eq_sub (hva i) (le_trans (hvb i) (boundOf_le i))
      (boundOf_le i) (hgood i)
  · rw [Hand.add, exceptToOption_none_iff]
    exact Iff.rfl
  · intro h hs i
    have hc := exceptToOption_some_eq hs
    rw [hc]
    rfl
  · rw [Hand.subPlay, exceptToOption_none_iff]
    constructor
    · rintro ⟨i, hbad⟩
      rw [uncheckedSubPlay_apply a hva p hp i] at hbad
      exact ⟨i, (wrapSub_bad_iff (hva i) (toHand_counts_le p i)
        (boundOf_le i)).mp hbad⟩
    · rintro ⟨i, hlt⟩
      refine ⟨i, ?_⟩
      rw [uncheckedSubPlay_apply a hva p hp i]
      exact (wrapSub_bad_iff (hva i) (toHand_counts_le p i)
        (boundOf_le i)).mpr hlt
  · intro h hs i
    have hc := exceptToOption_some_eq hs
    have hgood : ∀ j, (a.uncheckedSubPlay p).counts j ≤ boundOf j := by
      intro j
      by_contra hbad
      have : Hand.subPlay a p = none := by
        rw [Hand.subPlay, exceptToOption_none_iff]
        exact ⟨j, by omega⟩
      rw [this] at hs
      exact Option.noConfusion hs
    rw [hc, uncheckedSubPlay_apply a hva p hp i]
    have hg := hgood i
    rw [uncheckedSubPlay_apply a hva p hp i] at hg
    exact wrapSub_eq_sub (hva i) (toHand_counts_le p i) (boundOf_le i) hg
  · rw [Hand.addPlay, exceptToOption_none_iff]
    constructor
    · rintro ⟨i, hbad⟩
      rw [uncheckedAddPlay_apply a p hp i] at hbad
      exact ⟨i, hbad⟩
    · rintro ⟨i, hlt⟩
      refine ⟨i, ?_⟩
      rw [uncheckedAddPlay_apply a p hp i]
      exact hlt
  · intro h hs i
    have hc := exceptToOption_some_eq hs
    rw [hc]
    exact uncheckedAddPlay_apply a p hp i

/-- Witness for C4: removing a Bomb of Threes from the full deck leaves
zero Threes, and adding a Solo Three to the full deck overflows. -/
theorem handArith_checked_witness :
    (∀ h, Hand.subPlay fullDeck (.Bomb ⟨0, by decide⟩) = some h →
      ∀ i, h.counts i =
        fullDeck.counts i - (Play.toHand (.Bomb ⟨0, by decide⟩)).counts i) ∧
    (Hand.addPlay fullDeck (.Solo ⟨0, by decide⟩) = none ↔
      ∃ i, boundOf i <
        fullDeck.counts i + (Play.toHand (.Solo ⟨0, by decide⟩)).counts i) :=
  ⟨(handArith_checked fullDeck fullDeck (.Bomb ⟨0, by decide⟩)
      validHand_fullDeck validHand_fullDeck (by decide)).2.2.2.2.2.1,
   (handArith_checked fullDeck fullDeck (.Solo ⟨0, by decide⟩)
      validHand_fullDeck validHand_fullDeck (by decide)).2.2.2.2.2.2.1⟩

/-- A group of ranks that all appear with the same multiplicity plus
whether they form a consecutive run, `src/core/composition.rs` lines
11–15. -/
structure Group where
  ranks : List Rank
  consecutive : Bool
  deriving DecidableEq

/-- The structural breakdown of a hand, `src/core/composition.rs` lines
31–37. -/
structure Composition where
  solos : Group
  pairs : Group
  trios : Group
  fours : Group
  deriving DecidableEq

/-- The `update_group!` macro (`src/core/composition.rs` lines
354–367): append the rank, and clear the run flag when the rank is Two
or above, or does not extend the previous rank by exactly one step.
The `u8` subtraction `index - rank` is `Nat` subtraction here; ranks
are only ever appended in strictly ascending order. -/
def updateGroup (g : Group) (i : Fin 15) : Group :=
  { ranks := g.ranks ++ [i],
    consecutive :=
      if g.consecutive then
        if 12 ≤ i.val then false
        else
          match g.ranks.getLast? with
          | some r => if i.val - r.val = 1 then true else false
          | none => true
      else false }

/-- One step of the composition scan (`src/core/composition.rs` lines
368–377): dispatch on the count at rank `i`.  Counts above 4 are
`unreachable!()` in the source (impossible for a validated hand) and
leave the composition unchanged here. -/
def compStep (counts : Fin 15 → Nat) (c : Composition) (i : Fin 15) : Composition :=
  match counts i with
  | 0 => c
  | 1 => { c with solos := updateGroup c.solos i }
  | 2 => { c with pairs := updateGroup c.pairs i }
  | 3 => { c with trios := updateGroup c.trios i }
  | 4 => { c with fours := updateGroup c.fours i }
  | _ + 5 => c

def emptyComposition : Composition :=
  ⟨⟨[], true⟩, ⟨[], true⟩, ⟨[], true⟩, ⟨[], true⟩⟩

/-- `CompositionExt::composition` (`src/core/composition.rs` lines
345–380): scan the 15 ranks in ascending strength order. -/
def Hand.composition (h : Hand) : Composition :=
  (List.finRange 15).foldl (compStep h.counts) emptyComposition

/-- What the `consecutive` flag of a finished group means: every rank
below Two and each rank one step above its predecessor. -/
def groupOk (l : List Rank) : Prop := belowTwo l ∧ consecRun l

instance (l : List Rank) : Decidable (groupOk l) :=
  inferInstanceAs (Decidable (_ ∧ _))

theorem mem_of_getLast? {l : List Rank} {r : Rank} (h : l.getLast? = some r) :
    r ∈ l := by
  induction l with
  | nil => simp at h
  | cons a t ih =>
    cases t with
    | nil =>
      simp only [List.getLast?_singleton, Option.some.injEq] at h
      simp [h]
    | cons b t2 =>
      rw [List.getLast?_cons_cons] at h
      exact List.mem_cons_of_mem a (ih h)

theorem groupOk_append (fl : List Rank) (a : Rank) :
    groupOk (fl ++ [a]) ↔
      groupOk fl ∧ a.val < 12 ∧
        (∀ r, fl.getLast? = some r → a.val = r.val + 1) := by
  unfold groupOk belowTwo
  rw [consecRun_iff_chain', consecRun_iff_chain' fl, List.chain'_append]
  simp only [List.mem_append, List.mem_singleton, List.chain'_singleton,
    List.head?_cons, Option.mem_def, Option.some.injEq, true_and]
  constructor
  · rintro ⟨hbt, hch, hlast⟩
    refine ⟨⟨fun r hr => hbt r (Or.inl hr), hch⟩, hbt a (Or.inr rfl), ?_⟩
    intro r hr
    exact hlast r hr a rfl
  · rintro ⟨⟨hbt, hch⟩, ha, hlast⟩
    refine ⟨?_, hch, ?_⟩
    · rintro r (hr | rfl)
      · exact hbt r hr
      · exact ha
    · intro x hx y hy
      subst hy
      exact hlast x hx

theorem updateGroup_flag (g : Group) (a : Fin 15)
    (h2 : ∀ x ∈ g.ranks, x.val < a.val)
    (hiff : g.consecutive = true ↔ groupOk g.ranks) :
    ((updateGroup g a).consecutive = true ↔ groupOk (g.ranks ++ [a])) := by
  rw [groupOk_append]
  unfold updateGroup
  dsimp only
  by_cases hc : g.consecutive = true
  · rw [if_pos hc]
    by_cases h12 : 12 ≤ a.val
    · rw [if_pos h12]
      simp only [Bool.false_eq_true, false_iff]
      rintro ⟨_, ha, _⟩
      omega
    · rw [if_neg h12]
      rcases hl : g.ranks.getLast? with _ | r
      · refine ⟨fun _ => ⟨hiff.mp hc, by omega, ?_⟩, fun _ => rfl⟩
        intro r hr
        exact Option.noConfusion hr
      · have hra : r.val < a.val := h2 r (mem_of_getLast? hl)
        by_cases hd : a.val - r.val = 1
        · refine ⟨fun _ => ⟨hiff.mp hc, by omega, ?_⟩, fun _ => by simp [hd]⟩
          intro r' hr'
          cases hr'
          omega
        · refine ⟨fun hft => ?_, fun hrhs => ?_⟩
          · exfalso
            simp [hd] at hft
          · obtain ⟨_, _, hlast⟩ := hrhs
            have := hlast r rfl
            omega
  · rw [if_neg hc]
    simp only [Bool.false_eq_true, false_iff]
    rintro ⟨hgo, _, _⟩
    exact hc (hiff.mpr hgo)

/-- Characterization of the composition scan over any strictly
ascending index list: each group collects, in order, exactly the ranks
whose count equals its multiplicity, and each flag is set exactly when
the collected list is a below-Two consecutive run. -/
theorem compFold_spec (counts : Fin 15 → Nat) (l : List (Fin 15))
    (hl : List.Pairwise (· < ·) l) :
    (((l.foldl (compStep counts) emptyComposition).solos.ranks =
        l.filter (fun i => decide (counts i = 1))) ∧
      ((l.foldl (compStep counts) emptyComposition).solos.consecutive = true ↔
        groupOk (l.filter (fun i => decide (counts i = 1))))) ∧
    (((l.foldl (compStep counts) emptyComposition).pairs.ranks =
        l.filter (fun i => decide (counts i = 2))) ∧
      ((l.foldl (compStep counts) emptyComposition).pairs.consecutive = true ↔
        groupOk (l.filter (fun i => decide (counts i = 2))))) ∧
    (((l.foldl (compStep counts) emptyComposition).trios.ranks =
        l.filter (fun i => decide (counts i = 3))) ∧
      ((l.foldl (compStep counts) emptyComposition).trios.consecutive = true ↔
        groupOk (l.filter (fun i => decide (counts i = 3))))) ∧
    (((l.foldl (compStep counts) emptyComposition).fours.ranks =
        l.filter (fun i => decide (counts i = 4))) ∧
      ((l.foldl (compStep counts) emptyComposition).fours.consecutive = true ↔
        groupOk (l.filter (fun i => decide (counts i = 4))))) := by
  induction l using List.reverseRecOn with
  | nil =>
    simp [emptyComposition, groupOk, belowTwo, consecRun]
  | append_singleton l a ih =>
    have hpw := List.pairwise_append.mp hl
    have hl' : List.Pairwise (· < ·) l := hpw.1
    have hlta : ∀ x ∈ l, x < a := fun x hx => hpw.2.2 x hx a (by simp)
    obtain ⟨hso, hpa, htr, hfo⟩ := ih hl'
    rw [List.foldl_append]
    simp only [List.foldl_cons, List.foldl_nil]
    have hfilt : ∀ k : Nat,
        (l ++ [a]).filter (fun i => decide (counts i = k)) =
          l.filter (fun i => decide (counts i = k)) ++
            (if counts a = k then [a] else []) := by
      intro k
      rw [List.filter_append]
      congr 1
      by_cases hk : counts a = k <;> simp [hk]
    have hmemlt : ∀ k : Nat, ∀ x ∈ l.filter (fun i => decide (counts i = k)),
        x.val < a.val := by
      intro k x hx
      exact hlta x (List.mem_of_mem_filter hx)
    rcases hca : counts a with _ | _ | _ | _ | _ | n
    · refine ⟨?_, ?_, ?_, ?_⟩ <;>
        simp [compStep, hca, hfilt, hso.1, hso.2, hpa.1, hpa.2, htr.1, htr.2,
          hfo.1, hfo.2]
    · refine ⟨⟨?_, ?_⟩, ?_, ?_, ?_⟩
      · simp [compStep, hca, updateGroup, hfilt, hso.1]
      · rw [hfilt]
        simp only [compStep, hca]
        have h2x : ∀ x ∈ (List.foldl (compStep counts) emptyComposition l).solos.ranks,
            x.val < a.val := by
          rw [hso.1]
          exact hmemlt 1
        have hiffx : (List.foldl (compStep counts) emptyComposition l).solos.consecutive = true ↔
            groupOk (List.foldl (compStep counts) emptyComposition l).solos.ranks := by
          rw [hso.1]
          exact hso.2
        have hflag := updateGroup_flag _ a h2x hiffx
        rw [hso.1] at hflag
        simpa [hca] using hflag
      · simp [compStep, hca, hfilt, hpa.1, hpa.2]
      · simp [compStep, hca, hfilt, htr.1, htr.2]
      · simp [compStep, hca, hfilt, hfo.1, hfo.2]
    · refine ⟨?_, ⟨?_, ?_⟩, ?_, ?_⟩
      · simp [compStep, hca, hfilt, hso.1, hso.2]
      · simp [compStep, hca, updateGroup, hfilt, hpa.1]
      · rw [hfilt]
        simp only [compStep, hca]
        have h2x : ∀ x ∈ (List.foldl (compStep counts) emptyComposition l).pairs.ranks,
            x.val < a.val := by
          rw [hpa.1]
          exact hmemlt 2
        have hiffx : (List.foldl (compStep counts) emptyComposition l).pairs.consecutive = true ↔
            groupOk (List.foldl (compStep counts) emptyComposition l).pairs.ranks := by
          rw [hpa.1]
          exact hpa.2
        have hflag := updateGroup_flag _ a h2x hiffx
        rw [hpa.1] at hflag
        simpa [hca] using hflag
      · simp [compStep, hca, hfilt, htr.1, htr.2]
      · simp [compStep, hca, hfilt, hfo.1, hfo.2]
    · refine ⟨?_, ?_, ⟨?_, ?_⟩, ?_⟩
      · simp [compStep, hca, hfilt, hso.1, hso.2]
      · simp [compStep, hca, hfilt, hpa.1, hpa.2]
      · simp [compStep, hca, updateGroup, hfilt, htr.1]
      · rw [hfilt]
        simp only [compStep, hca]
        have h2x : ∀ x ∈ (List.foldl (compStep counts) emptyComposition l).trios.ranks,
            x.val < a.val := by
          rw [htr.1]
          exact hmemlt 3
        have hiffx : (List.foldl (compStep counts) emptyComposition l).trios.consecutive = true ↔
            groupOk (List.foldl (compStep counts) emptyComposition l).trios.ranks := by
          rw [htr.1]
          exact htr.2
        have hflag := updateGroup_flag _ a h2x hiffx
        rw [htr.1] at hflag
        simpa [hca] using hflag
      · simp [compStep, hca, hfilt, hfo.1, hfo.2]
    · refine ⟨?_, ?_, ?_, ⟨?_, ?_⟩⟩
      · simp [compStep, hca, hfilt, hso.1, hso.2]
      · simp [compStep, hca, hfilt, hpa.1, hpa.2]
      · simp [compStep, hca, hfilt, htr.1, htr.2]
      · simp [compStep, hca, updateGroup, hfilt, hfo.1]
      · rw [hfilt]
        simp only [compStep, hca]
        have h2x : ∀ x ∈ (List.foldl (compStep counts) emptyComposition l).fours.ranks,
            x.val < a.val := by
          rw [hfo.1]
          exact hmemlt 4
        have hiffx : (List.foldl (compStep counts) emptyComposition l).fours.consecutive = true ↔
            groupOk (List.foldl (compStep counts) emptyComposition l).fours.ranks := by
          rw [hfo.1]
          exact hfo.2
        have hflag := updateGroup_flag _ a h2x hiffx
        rw [hfo.1] at hflag
        simpa [hca] using hflag
    · refine ⟨?_, ?_, ?_, ?_⟩ <;>
        simp [compStep, hca, hfilt, hso.1, hso.2, hpa.1, hpa.2, htr.1, htr.2,
          hfo.1, hfo.2]

theorem comp_solos_ranks (h : Hand) :
    h.composition.solos.ranks =
      (List.finRange 15).filter (fun i => decide (h.counts i = 1)) :=
  ((compFold_spec h.counts _ (List.pairwise_lt_finRange 15)).1).1

theorem comp_solos_flag (h : Hand) :
    (h.composition.solos.consecutive = true ↔
      groupOk ((List.finRange 15).filter (fun i => decide (h.counts i = 1)))) :=
  ((compFold_spec h.counts _ (List.pairwise_lt_finRange 15)).1).2

theorem comp_pairs_ranks (h : Hand) :
    h.composition.pairs.ranks =
      (List.finRange 15).filter (fun i => decide (h.counts i = 2)) :=
  ((compFold_spec h.counts _ (List.pairwise_lt_finRange 15)).2.1).1

theorem comp_pairs_flag (h : Hand) :
    (h.composition.pairs.consecutive = true ↔
      groupOk ((List.finRange 15).filter (fun i => decide (h.counts i = 2)))) :=
  ((compFold_spec h.counts _ (List.pairwise_lt_finRange 15)).2.1).2

theorem comp_trios_ranks (h : Hand) :
    h.composition.trios.ranks =
      (List.finRange 15).filter (fun i => decide (h.counts i = 3)) :=
  ((compFold_spec h.counts _ (List.pairwise_lt_finRange 15)).2.2.1).1

theorem comp_trios_flag (h : Hand) :
    (h.composition.trios.consecutive = true ↔
      groupOk ((List.finRange 15).filter (fun i => decide (h.counts i = 3)))) :=
  ((compFold_spec h.counts _ (List.pairwise_lt_finRange 15)).2.2.1).2

theorem comp_fours_ranks (h : Hand) :
    h.composition.fours.ranks =
      (List.finRange 15).filter (fun i => decide (h.counts i = 4)) :=
  ((compFold_spec h.counts _ (List.pairwise_lt_finRange 15)).2.2.2).1

theorem comp_fours_flag (h : Hand) :
    (h.composition.fours.consecutive = true ↔
      groupOk ((List.finRange 15).filter (fun i => decide (h.counts i = 4)))) :=
  ((compFold_spec h.counts _ (List.pairwise_lt_finRange 15)).2.2.2).2

theorem sorted_filter_finRange (p : Fin 15 → Bool) :
    List.Pairwise (· < ·) ((List.finRange 15).filter p) :=
  (List.pairwise_lt_finRange 15).sublist (List.filter_sublist _)

/-- C8: the four groups of a valid hand's composition hold exactly the
ranks of multiplicity 1, 2, 3 and 4 respectively (hence are pairwise
disjoint), their union is exactly the set of populated ranks, and each
group lists its ranks in ascending strength order. -/
theorem composition_partition (h : Hand) (hv : validHand h) :
    (∀ i : Fin 15,
      (i ∈ h.composition.solos.ranks ↔ h.counts i = 1) ∧
      (i ∈ h.composition.pairs.ranks ↔ h.counts i = 2) ∧
      (i ∈ h.composition.trios.ranks ↔ h.counts i = 3) ∧
      (i ∈ h.composition.fours.ranks ↔ h.counts i = 4)) ∧
    (∀ i : Fin 15, h.counts i ≠ 0 ↔
      (i ∈ h.composition.solos.ranks ∨ i ∈ h.composition.pairs.ranks ∨
       i ∈ h.composition.trios.ranks ∨ i ∈ h.composition.fours.ranks)) ∧
    sortedAsc h.composition.solos.ranks ∧
    sortedAsc h.composition.pairs.ranks ∧
    sortedAsc h.composition.trios.ranks ∧
    sortedAsc h.composition.fours.ranks := by
  have hmem : ∀ (k : Nat) (i : Fin 15),
      i ∈ (List.finRange 15).filter (fun j => decide (h.counts j = k)) ↔
        h.counts i = k := by
    intro k i
    simp [List.mem_filter, List.mem_finRange]
  refine ⟨?_, ?_, ?_, ?_, ?_, ?_⟩
  · intro i
    rw [comp_solos_ranks, comp_pairs_ranks, comp_trios_ranks, comp_fours_ranks]
    exact ⟨hmem 1 i, hmem 2 i, hmem 3 i, hmem 4 i⟩
  · intro i
    rw [comp_solos_ranks, comp_pairs_ranks, comp_trios_ranks, comp_fours_ranks,
      hmem 1 i, hmem 2 i, hmem 3 i, hmem 4 i]
    have := hv i
    have := boundOf_le i
    omega
  · rw [comp_solos_ranks]
    exact sorted_filter_finRange _
  · rw [comp_pairs_ranks]
    exact sorted_filter_finRange _
  · rw [comp_trios_ranks]
    exact sorted_filter_finRange _
  · rw [comp_fours_ranks]
    exact sorted_filter_finRange _

/-- Witness for C8: concrete application at the full deck; its `fours`
group is exactly the thirteen non-joker ranks and its groups are
ascending. -/
theorem composition_partition_witness :
    sortedAsc fullDeck.composition.fours.ranks ∧
    (fullDeck.counts ⟨0, by decide⟩ ≠ 0 ↔
      (⟨0, by decide⟩ ∈ fullDeck.composition.solos.ranks ∨
       ⟨0, by decide⟩ ∈ fullDeck.composition.pairs.ranks ∨
       ⟨0, by decide⟩ ∈ fullDeck.composition.trios.ranks ∨
       ⟨0, by decide⟩ ∈ fullDeck.composition.fours.ranks)) :=
  ⟨(composition_partition fullDeck validHand_fullDeck).2.2.2.2.2,
   (composition_partition fullDeck validHand_fullDeck).2.1 _⟩

/-- Default rank used for the guarded `ranks[…]` indexing of the
source (the guards ensure it is never the result). -/
def rank0 : Rank := ⟨0, by decide⟩

/-- `to_solo` (`src/core/composition.rs` lines 113–123). -/
def Composition.toSolo (c : Composition) : Option Play :=
  if c.solos.ranks.length = 1 ∧ c.pairs.ranks = [] ∧ c.trios.ranks = [] ∧
      c.fours.ranks = []
  then some (.Solo (c.solos.ranks.headD rank0))
  else none

/-- `to_chain` (`src/core/composition.rs` lines 126–137). -/
def Composition.toChain (c : Composition) : Option Play :=
  if 5 ≤ c.solos.ranks.length ∧ c.solos.consecutive = true ∧
      c.pairs.ranks = [] ∧ c.trios.ranks = [] ∧ c.fours.ranks = []
  then some (.Chain c.solos.ranks)
  else none

/-- `to_pair` (`src/core/composition.rs` lines 140–150). -/
def Composition.toPair (c : Composition) : Option Play :=
  if c.solos.ranks = [] ∧ c.pairs.ranks.length = 1 ∧ c.trios.ranks = [] ∧
      c.fours.ranks = []
  then some (.Pair (c.pairs.ranks.headD rank0))
  else none

/-- `to_pairs_chain` (`src/core/composition.rs` lines 153–164). -/
def Composition.toPairsChain (c : Composition) : Option Play :=
  if c.solos.ranks = [] ∧ 3 ≤ c.pairs.ranks.length ∧
      c.pairs.consecutive = true ∧ c.trios.ranks = [] ∧ c.fours.ranks = []
  then some (.PairsChain c.pairs.ranks)
  else none

/-- `to_trio` (`src/core/composition.rs` lines 167–177). -/
def Composition.toTrio (c : Composition) : Option Play :=
  if c.solos.ranks = [] ∧ c.pairs.ranks = [] ∧ c.trios.ranks.length = 1 ∧
      c.fours.ranks = []
  then some (.Trio (c.trios.ranks.headD rank0))
  else none

/-- `to_airplane` (`src/core/composition.rs` lines 180–191). -/
def Composition.toAirplane (c : Composition) : Option Play :=
  if c.solos.ranks = [] ∧ c.pairs.ranks = [] ∧ 2 ≤ c.trios.ranks.length ∧
      c.trios.consecutive = true ∧ c.fours.ranks = []
  then some (.Airplane c.trios.ranks)
  else none

/-- `to_trio_with_solo` (`src/core/composition.rs` lines 194–207). -/
def Composition.toTrioWithSolo (c : Composition) : Option Play :=
  if c.solos.ranks.length = 1 ∧ c.pairs.ranks = [] ∧
      c.trios.ranks.length = 1 ∧ c.fours.ranks = []
  then some (.TrioWithSolo (c.trios.ranks.headD rank0) (c.solos.ranks.headD rank0))
  else none

/-- `to_airplane_with_solos` (`src/core/composition.rs` lines 210–229):
the two highest solo kickers may not be exactly BlackJoker and RedJoker
(that would conceal a Rocket). -/
def Composition.toAirplaneWithSolos (c : Composition) : Option Play :=
  if c.solos.ranks.length = c.trios.ranks.length ∧
      2 ≤ c.solos.ranks.length ∧
      ¬(c.solos.ranks.getD (c.solos.ranks.length - 1) rank0 = Rank.redJoker ∧
        c.solos.ranks.getD (c.solos.ranks.length - 2) rank0 = Rank.blackJoker) ∧
      c.pairs.ranks = [] ∧ c.trios.consecutive = true ∧ c.fours.ranks = []
  then some (.AirplaneWithSolos c.trios.ranks c.solos.ranks)
  else none

/-- `to_trio_with_pair` (`src/core/composition.rs` lines 232–245). -/
def Composition.toTrioWithPair (c : Composition) : Option Play :=
  if c.solos.ranks = [] ∧ c.pairs.ranks.length = 1 ∧
      c.trios.ranks.length = 1 ∧ c.fours.ranks = []
  then some (.TrioWithPair (c.trios.ranks.headD rank0) (c.pairs.ranks.headD rank0))
  else none

/-- `to_airplane_with_pairs` (`src/core/composition.rs` lines 248–262). -/
def Composition.toAirplaneWithPairs (c : Composition) : Option Play :=
  if c.solos.ranks = [] ∧ c.pairs.ranks.length = c.trios.ranks.length ∧
      2 ≤ c.trios.ranks.length ∧ c.trios.consecutive = true ∧
      c.fours.ranks = []
  then some (.AirplaneWithPairs c.trios.ranks c.pairs.ranks)
  else none

/-- `to_bomb` (`src/core/composition.rs` lines 265–275). -/
def Composition.toBomb (c : Composition) : Option Play :=
  if c.solos.ranks = [] ∧ c.pairs.ranks = [] ∧ c.trios.ranks = [] ∧
      c.fours.ranks.length = 1
  then some (.Bomb (c.fours.ranks.headD rank0))
  else none

/-- `to_four_with_dual_solo` (`src/core/composition.rs` lines 278–295):
the lower solo may not be BlackJoker (the two solos would be exactly
the two jokers, a concealed Rocket). -/
def Composition.toFourWithDualSolo (c : Composition) : Option Play :=
  if c.solos.ranks.length = 2 ∧
      c.solos.ranks.getD 0 rank0 ≠ Rank.blackJoker ∧
      c.pairs.ranks = [] ∧ c.trios.ranks = [] ∧ c.fours.ranks.length = 1
  then some (.FourWithDualSolo (c.fours.ranks.headD rank0)
    (c.solos.ranks.getD 0 rank0, c.solos.ranks.getD 1 rank0))
  else none

/-- `to_four_with_dual_pair` (`src/core/composition.rs` lines 298–314). -/
def Composition.toFourWithDualPair (c : Composition) : Option Play :=
  if c.solos.ranks = [] ∧ c.pairs.ranks.length = 2 ∧ c.trios.ranks = [] ∧
      c.fours.ranks.length = 1
  then some (.FourWithDualPair (c.fours.ranks.headD rank0)
    (c.pairs.ranks.getD 0 rank0, c.pairs.ranks.getD 1 rank0))
  else none

/-- `to_rocket` (`src/core/composition.rs` lines 317–329). -/
def Composition.toRocket (c : Composition) : Option Play :=
  if c.solos.ranks.length = 2 ∧
      c.solos.ranks.getD 0 rank0 = Rank.blackJoker ∧
      c.solos.ranks.getD 1 rank0 = Rank.redJoker ∧
      c.pairs.ranks = [] ∧ c.trios.ranks = [] ∧ c.fours.ranks = []
  then some .Rocket
  else none

/-- The fourteen predicates in exactly the order `guess_play` tries
them (`src/core/composition.rs` lines 65–76). -/
def predsList (c : Composition) : List (Option Play) :=
  [c.toSolo, c.toChain, c.toPair, c.toPairsChain, c.toTrio, c.toAirplane,
   c.toTrioWithSolo, c.toAirplaneWithSolos, c.toTrioWithPair,
   c.toAirplaneWithPairs, c.toBomb, c.toFourWithDualSolo,
   c.toFourWithDualPair, c.toRocket]

/-- `guess_play` (`src/core/composition.rs` lines 53–78): return the
first `Some` among the fourteen predicates, tried in order. -/
def Composition.guessPlay (c : Composition) : Option Play :=
  (predsList c).findSome? id

theorem isSome_guard {P : Prop} [Decidable P] (x : Play) :
    (if P then some x else none : Option Play).isSome = decide P := by
  split <;> simp_all

theorem guessPlay_at_most_one (c : Composition) :
    (predsList c).countP (fun o => o.isSome) ≤ 1 := by
  by_cases hs : c.solos.ranks = [] <;>
  by_cases hp : c.pairs.ranks = [] <;>
  by_cases ht : c.trios.ranks = [] <;>
  by_cases hf : c.fours.ranks = [] <;>
    simp only [predsList, List.countP_cons, List.countP_nil,
      Composition.toSolo, Composition.toChain, Composition.toPair,
      Composition.toPairsChain, Composition.toTrio, Composition.toAirplane,
      Composition.toTrioWithSolo, Composition.toAirplaneWithSolos,
      Composition.toTrioWithPair, Composition.toAirplaneWithPairs,
      Composition.toBomb, Composition.toFourWithDualSolo,
      Composition.toFourWithDualPair, Composition.toRocket, isSome_guard,
      decide_eq_true_eq] <;>
    simp [hs, hp, ht, hf] <;>
    split_ifs <;>
    simp_all <;>
    omega

theorem findSome?_eq_head?_filterMap (l : List (Option Play)) :
    l.findSome? id = (l.filterMap id).head? := by
  induction l with
  | nil => rfl
  | cons a t ih =>
    cases a with
    | none =>
      have h1 : ((none : Option Play) :: t).findSome? id = t.findSome? id := rfl
      have h2 : ((none : Option Play) :: t).filterMap id = t.filterMap id := by
        simp [List.filterMap_cons]
      rw [h1, h2, ih]
    | some x =>
      have h1 : ((some x) :: t).findSome? id = some x := rfl
      have h2 : ((some x) :: t).filterMap id = x :: t.filterMap id := by
        simp [List.filterMap_cons]
      rw [h1, h2]
      rfl

theorem countP_isSome_eq_length (l : List (Option Play)) :
    l.countP (fun o => o.isSome) = (l.filterMap id).length := by
  induction l with
  | nil => rfl
  | cons a t ih =>
    cases a with
    | none => simp [List.countP_cons, List.filterMap_cons, ih]
    | some x => simp [List.countP_cons, List.filterMap_cons, ih]

theorem findSome?_perm_of_le_one {l1 l2 : List (Option Play)}
    (hperm : l1.Perm l2) (h1 : l1.countP (fun o => o.isSome) ≤ 1) :
    l1.findSome? id = l2.findSome? id := by
  rw [findSome?_eq_head?_filterMap, findSome?_eq_head?_filterMap]
  have hp2 : (l1.filterMap id).Perm (l2.filterMap id) := hperm.filterMap id
  rw [countP_isSome_eq_length] at h1
  rcases hfm : l1.filterMap id with _ | ⟨x, t⟩
  · rw [hfm] at hp2
    rw [(List.perm_nil.mp hp2.symm)]
  · rw [hfm] at hp2 h1
    simp only [List.length_cons] at h1
    have ht : t = [] := List.length_eq_zero.mp (by omega)
    subst ht
    rw [List.singleton_perm.mp hp2]

/-- C2: at most one of the fourteen shape predicates matches any
composition, and consequently the first-match scan of `guess_play`
returns the same result under any ordering of the predicates. -/
theorem guessPlay_unique (c : Composition) :
    (predsList c).countP (fun o => o.isSome) ≤ 1 ∧
    (∀ l : List (Option Play), l.Perm (predsList c) →
      l.findSome? id = c.guessPlay) := by
  refine ⟨guessPlay_at_most_one c, ?_⟩
  intro l hl
  unfold Composition.guessPlay
  have hcount : l.countP (fun o => o.isSome) ≤ 1 := by
    rw [hl.countP_eq]
    exact guessPlay_at_most_one c
  exact findSome?_perm_of_le_one hl hcount

/-- Witness for C2: the identity permutation of the predicate list of a
concrete composition returns `guess_play`'s result. -/
theorem guessPlay_unique_witness :
    (predsList emptyComposition).findSome? id = emptyComposition.guessPlay :=
  (guessPlay_unique emptyComposition).2 _ (List.Perm.refl _)

theorem filter_mem_eq (l : List Rank) (hs : List.Pairwise (· < ·) l) :
    (List.finRange 15).filter (fun i => decide (i ∈ l)) = l := by
  have hperm : ((List.finRange 15).filter (fun i => decide (i ∈ l))).Perm l := by
    refine (List.perm_ext_iff_of_nodup ?_ ?_).mpr ?_
    · exact (List.nodup_finRange 15).filter _
    · exact sortedAsc_nodup hs
    · intro a
      simp [List.mem_filter, List.mem_finRange]
  exact List.eq_of_perm_of_sorted hperm (sorted_filter_finRange _) hs

theorem filter_cnt_eq (cnt : Fin 15 → Nat) (m : Nat) (l : List Rank)
    (hs : List.Pairwise (· < ·) l) (hiff : ∀ i, cnt i = m ↔ i ∈ l) :
    (List.finRange 15).filter (fun i => decide (cnt i = m)) = l := by
  have heq : (List.finRange 15).filter (fun i => decide (cnt i = m)) =
      (List.finRange 15).filter (fun i => decide (i ∈ l)) := by
    apply List.filter_congr
    intro a _
    exact decide_eq_decide.mpr (hiff a)
  rw [heq]
  exact filter_mem_eq l hs

theorem filter_cnt_nil (cnt : Fin 15 → Nat) (m : Nat)
    (hno : ∀ i, cnt i ≠ m) :
    (List.finRange 15).filter (fun i => decide (cnt i = m)) = [] :=
  List.filter_eq_nil_iff.mpr (fun a _ => by simp [hno a])

theorem getD_mem {l : List Rank} {n : Nat} (h : n < l.length) (d : Rank) :
    l.getD n d ∈ l := by
  rw [List.getD_eq_getElem l d h]
  exact List.getElem_mem h

theorem one_batch_counts (l : List Rank) (k : Nat) (i : Fin 15) (hk : k ≠ 0) :
    (writeAll zeroCounts l k i = k ↔ i ∈ l) ∧
    (∀ m, m ≠ 0 → m ≠ k → writeAll zeroCounts l k i ≠ m) := by
  rw [writeAll_apply]
  by_cases hi : i ∈ l
  · rw [if_pos hi]
    refine ⟨by simp [hi], ?_⟩
    intro m hm0 hmk
    omega
  · rw [if_neg hi]
    refine ⟨?_, ?_⟩
    · simp only [zeroCounts]
      constructor
      · intro h0
        exact absurd h0.symm hk
      · intro hmem
        exact absurd hmem hi
    · intro m hm0 hmk
      simp only [zeroCounts]
      omega

theorem two_batch_counts (l1 l2 : List Rank) (k1 k2 : Nat) (i : Fin 15)
    (hk1 : k1 ≠ 0) (hk2 : k2 ≠ 0) (hne : k1 ≠ k2)
    (hd : ∀ x ∈ l2, x ∉ l1) :
    (writeAll (writeAll zeroCounts l1 k1) l2 k2 i = k1 ↔ i ∈ l1) ∧
    (writeAll (writeAll zeroCounts l1 k1) l2 k2 i = k2 ↔ i ∈ l2) ∧
    (∀ m, m ≠ 0 → m ≠ k1 → m ≠ k2 →
      writeAll (writeAll zeroCounts l1 k1) l2 k2 i ≠ m) := by
  rw [writeAll_apply, writeAll_apply]
  by_cases h2 : i ∈ l2
  · have h1 : i ∉ l1 := hd i h2
    rw [if_pos h2]
    refine ⟨?_, by simp [h2], ?_⟩
    · constructor
      · intro he
        exact absurd he.symm hne
      · intro hmem
        exact absurd hmem h1
    · intro m hm0 hm1 hm2
      omega
  · rw [if_neg h2]
    by_cases h1 : i ∈ l1
    · rw [if_pos h1]
      refine ⟨by simp [h1], ?_, ?_⟩
      · constructor
        · intro he
          exact absurd he hne
        · intro hmem
          exact absurd hmem h2
      · intro m hm0 hm1 hm2
        omega
    · rw [if_neg h1]
      refine ⟨?_, ?_, ?_⟩
      · simp only [zeroCounts]
        constructor
        · intro h0
          exact absurd h0.symm hk1
        · intro hmem
          exact absurd hmem h1
      · simp only [zeroCounts]
        constructor
        · intro h0
          exact absurd h0.symm hk2
        · intro hmem
          exact absurd hmem h2
      · intro m hm0 hm1 hm2
        simp only [zeroCounts]
        omega

theorem toSolo_none {c : Composition}
    (h : ¬(c.solos.ranks.length = 1 ∧ c.pairs.ranks = [] ∧
      c.trios.ranks = [] ∧ c.fours.ranks = [])) : c.toSolo = none := by
  unfold Composition.toSolo
  exact if_neg h

theorem toChain_none {c : Composition}
    (h : ¬(5 ≤ c.solos.ranks.length ∧ c.solos.consecutive = true ∧
      c.pairs.ranks = [] ∧ c.trios.ranks = [] ∧ c.fours.ranks = [])) :
    c.toChain = none := by
  unfold Composition.toChain
  exact if_neg h

theorem toPair_none {c : Composition}
    (h : ¬(c.solos.ranks = [] ∧ c.pairs.ranks.length = 1 ∧
      c.trios.ranks = [] ∧ c.fours.ranks = [])) : c.toPair = none := by
  unfold Composition.toPair
  exact if_neg h

theorem toPairsChain_none {c : Composition}
    (h : ¬(c.solos.ranks = [] ∧ 3 ≤ c.pairs.ranks.length ∧
      c.pairs.consecutive = true ∧ c.trios.ranks = [] ∧ c.fours.ranks = [])) :
    c.toPairsChain = none := by
  unfold Composition.toPairsChain
  exact if_neg h

theorem toTrio_none {c : Composition}
    (h : ¬(c.solos.ranks = [] ∧ c.pairs.ranks = [] ∧
      c.trios.ranks.length = 1 ∧ c.fours.ranks = [])) : c.toTrio = none := by
  unfold Composition.toTrio
  exact if_neg h

theorem toAirplane_none {c : Composition}
    (h : ¬(c.solos.ranks = [] ∧ c.pairs.ranks = [] ∧
      2 ≤ c.trios.ranks.length ∧ c.trios.consecutive = true ∧
      c.fours.ranks = [])) : c.toAirplane = none := by
  unfold Composition.toAirplane
  exact if_neg h

theorem toTrioWithSolo_none {c : Composition}
    (h : ¬(c.solos.ranks.length = 1 ∧ c.pairs.ranks = [] ∧
      c.trios.ranks.length = 1 ∧ c.fours.ranks = [])) :
    c.toTrioWithSolo = none := by
  unfold Composition.toTrioWithSolo
  exact if_neg h

theorem toAirplaneWithSolos_none {c : Composition}
    (h : ¬(c.solos.ranks.length = c.trios.ranks.length ∧
      2 ≤ c.solos.ranks.length ∧
      ¬(c.solos.ranks.getD (c.solos.ranks.length - 1) rank0 = Rank.redJoker ∧
        c.solos.ranks.getD (c.solos.ranks.length - 2) rank0 = Rank.blackJoker) ∧
      c.pairs.ranks = [] ∧ c.trios.consecutive = true ∧ c.fours.ranks = [])) :
    c.toAirplaneWithSolos = none := by
  unfold Composition.toAirplaneWithSolos
  exact if_neg h

theorem toTrioWithPair_none {c : Composition}
    (h : ¬(c.solos.ranks = [] ∧ c.pairs.ranks.length = 1 ∧
      c.trios.ranks.length = 1 ∧ c.fours.ranks = [])) :
    c.toTrioWithPair = none := by
  unfold Composition.toTrioWithPair
  exact if_neg h

theorem toAirplaneWithPairs_none {c : Composition}
    (h : ¬(c.solos.ranks = [] ∧ c.pairs.ranks.length = c.trios.ranks.length ∧
      2 ≤ c.trios.ranks.length ∧ c.trios.consecutive = true ∧
      c.fours.ranks = [])) : c.toAirplaneWithPairs = none := by
  unfold Composition.toAirplaneWithPairs
  exact if_neg h

theorem toBomb_none {c : Composition}
    (h : ¬(c.solos.ranks = [] ∧ c.pairs.ranks = [] ∧ c.trios.ranks = [] ∧
      c.fours.ranks.length = 1)) : c.toBomb = none := by
  unfold Composition.toBomb
  exact if_neg h

theorem toFourWithDualSolo_none {c : Composition}
    (h : ¬(c.solos.ranks.length = 2 ∧
      c.solos.ranks.getD 0 rank0 ≠ Rank.blackJoker ∧
      c.pairs.ranks = [] ∧ c.trios.ranks = [] ∧ c.fours.ranks.length = 1)) :
    c.toFourWithDualSolo = none := by
  unfold Composition.toFourWithDualSolo
  exact if_neg h

theorem toFourWithDualPair_none {c : Composition}
    (h : ¬(c.solos.ranks = [] ∧ c.pairs.ranks.length = 2 ∧
      c.trios.ranks = [] ∧ c.fours.ranks.length = 1)) :
    c.toFourWithDualPair = none := by
  unfold Composition.toFourWithDualPair
  exact if_neg h

/-- C1: for every well-formed standard play, converting to a hand with
`to_hand` and classifying the hand's composition with `guess_play`
recovers the original play exactly (kind and payload preserved). -/
theorem roundTrip (p : Play) (hp : standardPlay p) :
    (Play.toHand p).composition.guessPlay = some p := by
  cases p with
  | Solo r =>
    have hcnt := fun i => one_batch_counts [r] 1 i (by omega)
    have hfilt1 : (List.finRange 15).filter
        (fun i => decide ((Play.toHand (Play.Solo r)).counts i = 1)) = [r] :=
      filter_cnt_eq _ _ _ (by simp) (fun i => (hcnt i).1)
    have h1 : (Play.toHand (Play.Solo r)).composition.solos.ranks = [r] := by
      rw [comp_solos_ranks]
      exact hfilt1
    have h2 : (Play.toHand (Play.Solo r)).composition.pairs.ranks = [] := by
      rw [comp_pairs_ranks]
      exact filter_cnt_nil _ _ (fun i => (hcnt i).2 2 (by omega) (by omega))
    have h3 : (Play.toHand (Play.Solo r)).composition.trios.ranks = [] := by
      rw [comp_trios_ranks]
      exact filter_cnt_nil _ _ (fun i => (hcnt i).2 3 (by omega) (by omega))
    have h4 : (Play.toHand (Play.Solo r)).composition.fours.ranks = [] := by
      rw [comp_fours_ranks]
      exact filter_cnt_nil _ _ (fun i => (hcnt i).2 4 (by omega) (by omega))
    have e1 : (Play.toHand (Play.Solo r)).composition.toSolo =
        some (Play.Solo r) := by
      unfold Composition.toSolo
      rw [if_pos ⟨by simp [h1], h2, h3, h4⟩, h1]
      rfl
    unfold Composition.guessPlay predsList
    rw [e1]
    rfl
  | Chain l =>
    obtain ⟨hlen, hrun, hbt⟩ := hp
    have hsort : List.Pairwise (· < ·) l := consecRun_pairwise hrun
    have hcnt := fun i => one_batch_counts l 1 i (by omega)
    have hfilt1 : (List.finRange 15).filter
        (fun i => decide ((Play.toHand (Play.Chain l)).counts i = 1)) = l :=
      filter_cnt_eq _ _ _ hsort (fun i => (hcnt i).1)
    have h1 : (Play.toHand (Play.Chain l)).composition.solos.ranks = l := by
      rw [comp_solos_ranks]
      exact hfilt1
    have h2 : (Play.toHand (Play.Chain l)).composition.pairs.ranks = [] := by
      rw [comp_pairs_ranks]
      exact filter_cnt_nil _ _ (fun i => (hcnt i).2 2 (by omega) (by omega))
    have h3 : (Play.toHand (Play.Chain l)).composition.trios.ranks = [] := by
      rw [comp_trios_ranks]
      exact filter_cnt_nil _ _ (fun i => (hcnt i).2 3 (by omega) (by omega))
    have h4 : (Play.toHand (Play.Chain l)).composition.fours.ranks = [] := by
      rw [comp_fours_ranks]
      exact filter_cnt_nil _ _ (fun i => (hcnt i).2 4 (by omega) (by omega))
    have hflag : (Play.toHand (Play.Chain l)).composition.solos.consecutive
        = true := (comp_solos_flag _).mpr (by
      rw [hfilt1]
      exact ⟨hbt, hrun⟩)
    have e1 : (Play.toHand (Play.Chain l)).composition.toSolo = none :=
      toSolo_none (by
        simp [h1, h2, h3, h4]
        omega)
    have e2 : (Play.toHand (Play.Chain l)).composition.toChain =
        some (Play.Chain l) := by
      unfold Composition.toChain
      rw [if_pos ⟨by rw [h1]; exact hlen, hflag, h2, h3, h4⟩, h1]
    unfold Composition.guessPlay predsList
    rw [e1, e2]
    rfl
  | Pair r =>
    have hcnt := fun i => one_batch_counts [r] 2 i (by omega)
    have hfilt2 : (List.finRange 15).filter
        (fun i => decide ((Play.toHand (Play.Pair r)).counts i = 2)) = [r] :=
      filter_cnt_eq _ _ _ (by simp) (fun i => (hcnt i).1)
    have h1 : (Play.toHand (Play.Pair r)).composition.solos.ranks = [] := by
      rw [comp_solos_ranks]
      exact filter_cnt_nil _ _ (fun i => (hcnt i).2 1 (by omega) (by omega))
    have h2 : (Play.toHand (Play.Pair r)).composition.pairs.ranks = [r] := by
      rw [comp_pairs_ranks]
      exact hfilt2
    have h3 : (Play.toHand (Play.Pair r)).composition.trios.ranks = [] := by
      rw [comp_trios_ranks]
      exact filter_cnt_nil _ _ (fun i => (hcnt i).2 3 (by omega) (by omega))
    have h4 : (Play.toHand (Play.Pair r)).composition.fours.ranks = [] := by
      rw [comp_fours_ranks]
      exact filter_cnt_nil _ _ (fun i => (hcnt i).2 4 (by omega) (by omega))
    have e1 : (Play.toHand (Play.Pair r)).composition.toSolo = none :=
      toSolo_none (by simp [h1, h2])
    have e2 : (Play.toHand (Play.Pair r)).composition.toChain = none :=
      toChain_none (by simp [h2])
    have e3 : (Play.toHand (Play.Pair r)).composition.toPair =
        some (Play.Pair r) := by
      unfold Composition.toPair
      rw [if_pos ⟨h1, by simp [h2], h3, h4⟩, h2]
      rfl
    unfold Composition.guessPlay predsList
    rw [e1, e2, e3]
    rfl
  | PairsChain l =>
    obtain ⟨hlen, hrun, hbt⟩ := hp
    have hsort : List.Pairwise (· < ·) l := consecRun_pairwise hrun
    have hcnt := fun i => one_batch_counts l 2 i (by omega)
    have hfilt2 : (List.finRange 15).filter
        (fun i => decide ((Play.toHand (Play.PairsChain l)).counts i = 2)) = l :=
      filter_cnt_eq _ _ _ hsort (fun i => (hcnt i).1)
    have h1 : (Play.toHand (Play.PairsChain l)).composition.solos.ranks = [] := by
      rw [comp_solos_ranks]
      exact filter_cnt_nil _ _ (fun i => (hcnt i).2 1 (by omega) (by omega))
    have h2 : (Play.toHand (Play.PairsChain l)).composition.pairs.ranks = l := by
      rw [comp_pairs_ranks]
      exact hfilt2
    have h3 : (Play.toHand (Play.PairsChain l)).composition.trios.ranks = [] := by
      rw [comp_trios_ranks]
      exact filter_cnt_nil _ _ (fun i => (hcnt i).2 3 (by omega) (by omega))
    have h4 : (Play.toHand (Play.PairsChain l)).composition.fours.ranks = [] := by
      rw [comp_fours_ranks]
      exact filter_cnt_nil _ _ (fun i => (hcnt i).2 4 (by omega) (by omega))
    have hflag : (Play.toHand (Play.PairsChain l)).composition.pairs.consecutive
        = true := (comp_pairs_flag _).mpr (by
      rw [hfilt2]
      exact ⟨hbt, hrun⟩)
    have e1 : (Play.toHand (Play.PairsChain l)).composition.toSolo = none :=
      toSolo_none (by simp [h1])
    have e2 : (Play.toHand (Play.PairsChain l)).composition.toChain = none :=
      toChain_none (by simp [h1])
    have e3 : (Play.toHand (Play.PairsChain l)).composition.toPair = none :=
      toPair_none (by
        simp [h1, h2, h3, h4]
        omega)
    have e4 : (Play.toHand (Play.PairsChain l)).composition.toPairsChain =
        some (Play.PairsChain l) := by
      unfold Composition.toPairsChain
      rw [if_pos ⟨h1, by rw [h2]; exact hlen, hflag, h3, h4⟩, h2]
    unfold Composition.guessPlay predsList
    rw [e1, e2, e3, e4]
    rfl
  | Trio r =>
    have hcnt := fun i => one_batch_counts [r] 3 i (by omega)
    have hfilt3 : (List.finRange 15).filter
        (fun i => decide ((Play.toHand (Play.Trio r)).counts i = 3)) = [r] :=
      filter_cnt_eq _ _ _ (by simp) (fun i => (hcnt i).1)
    have h1 : (Play.toHand (Play.Trio r)).composition.solos.ranks = [] := by
      rw [comp_solos_ranks]
      exact filter_cnt_nil _ _ (fun i => (hcnt i).2 1 (by omega) (by omega))
    have h2 : (Play.toHand (Play.Trio r)).composition.pairs.ranks = [] := by
      rw [comp_pairs_ranks]
      exact filter_cnt_nil _ _ (fun i => (hcnt i).2 2 (by omega) (by omega))
    have h3 : (Play.toHand (Play.Trio r)).composition.trios.ranks = [r] := by
      rw [comp_trios_ranks]
      exact hfilt3
    have h4 : (Play.toHand (Play.Trio r)).composition.fours.ranks = [] := by
      rw [comp_fours_ranks]
      exact filter_cnt_nil _ _ (fun i => (hcnt i).2 4 (by omega) (by omega))
    have e1 : (Play.toHand (Play.Trio r)).composition.toSolo = none :=
      toSolo_none (by simp [h1, h3])
    have e2 : (Play.toHand (Play.Trio r)).composition.toChain = none :=
      toChain_none (by simp [h1])
    have e3 : (Play.toHand (Play.Trio r)).composition.toPair = none :=
      toPair_none (by simp [h2, h3])
    have e4 : (Play.toHand (Play.Trio r)).composition.toPairsChain = none :=
      toPairsChain_none (by simp [h2])
    have e5 : (Play.toHand (Play.Trio r)).composition.toTrio =
        some (Play.Trio r) := by
      unfold Composition.toTrio
      rw [if_pos ⟨h1, h2, by simp [h3], h4⟩, h3]
      rfl
    unfold Composition.guessPlay predsList
    rw [e1, e2, e3, e4, e5]
    rfl
  | Airplane l =>
    obtain ⟨hlen, hrun, hbt⟩ := hp
    have hsort : List.Pairwise (· < ·) l := consecRun_pairwise hrun
    have hcnt := fun i => one_batch_counts l 3 i (by omega)
    have hfilt3 : (List.finRange 15).filter
        (fun i => decide ((Play.toHand (Play.Airplane l)).counts i = 3)) = l :=
      filter_cnt_eq _ _ _ hsort (fun i => (hcnt i).1)
    have h1 : (Play.toHand (Play.Airplane l)).composition.solos.ranks = [] := by
      rw [comp_solos_ranks]
      exact filter_cnt_nil _ _ (fun i => (hcnt i).2 1 (by omega) (by omega))
    have h2 : (Play.toHand (Play.Airplane l)).composition.pairs.ranks = [] := by
      rw [comp_pairs_ranks]
      exact filter_cnt_nil _ _ (fun i => (hcnt i).2 2 (by omega) (by omega))
    have h3 : (Play.toHand (Play.Airplane l)).composition.trios.ranks = l := by
      rw [comp_trios_ranks]
      exact hfilt3
    have h4 : (Play.toHand (Play.Airplane l)).composition.fours.ranks = [] := by
      rw [comp_fours_ranks]
      exact filter_cnt_nil _ _ (fun i => (hcnt i).2 4 (by omega) (by omega))
    have hflag : (Play.toHand (Play.Airplane l)).composition.trios.consecutive
        = true := (comp_trios_flag _).mpr (by
      rw [hfilt3]
      exact ⟨hbt, hrun⟩)
    have e1 : (Play.toHand (Play.Airplane l)).composition.toSolo = none :=
      toSolo_none (by simp [h1])
    have e2 : (Play.toHand (Play.Airplane l)).composition.toChain = none :=
      toChain_none (by simp [h1])
    have e3 : (Play.toHand (Play.Airplane l)).composition.toPair = none :=
      toPair_none (by simp [h2])
    have e4 : (Play.toHand (Play.Airplane l)).composition.toPairsChain = none :=
      toPairsChain_none (by simp [h2])
    have e5 : (Play.toHand (Play.Airplane l)).composition.toTrio = none :=
      toTrio_none (by
        simp [h1, h2, h3, h4]
        omega)
    have e6 : (Play.toHand (Play.Airplane l)).composition.toAirplane =
        some (Play.Airplane l) := by
      unfold Composition.toAirplane
      rw [if_pos ⟨h1, h2, by rw [h3]; exact hlen, hflag, h4⟩, h3]
    unfold Composition.guessPlay predsList
    rw [e1, e2, e3, e4, e5, e6]
    rfl
  | TrioWithSolo t s =>
    obtain ⟨ht13, hts⟩ := hp
    have hdisj : ∀ x ∈ [s], x ∉ [t] := by
      intro x hx
      simp only [List.mem_singleton] at hx
      subst hx
      simp only [List.mem_singleton]
      exact fun he => hts he.symm
    have hcnt := fun i =>
      two_batch_counts [t] [s] 3 1 i (by omega) (by omega) (by omega) hdisj
    have hfilt1 : (List.finRange 15).filter
        (fun i => decide ((Play.toHand (Play.TrioWithSolo t s)).counts i = 1)) =
          [s] :=
      filter_cnt_eq _ _ _ (by simp) (fun i => (hcnt i).2.1)
    have hfilt3 : (List.finRange 15).filter
        (fun i => decide ((Play.toHand (Play.TrioWithSolo t s)).counts i = 3)) =
          [t] :=
      filter_cnt_eq _ _ _ (by simp) (fun i => (hcnt i).1)
    have h1 : (Play.toHand (Play.TrioWithSolo t s)).composition.solos.ranks
        = [s] := by
      rw [comp_solos_ranks]
      exact hfilt1
    have h2 : (Play.toHand (Play.TrioWithSolo t s)).composition.pairs.ranks
        = [] := by
      rw [comp_pairs_ranks]
      exact filter_cnt_nil _ _
        (fun i => (hcnt i).2.2 2 (by omega) (by omega) (by omega))
    have h3 : (Play.toHand (Play.TrioWithSolo t s)).composition.trios.ranks
        = [t] := by
      rw [comp_trios_ranks]
      exact hfilt3
    have h4 : (Play.toHand (Play.TrioWithSolo t s)).composition.fours.ranks
        = [] := by
      rw [comp_fours_ranks]
      exact filter_cnt_nil _ _
        (fun i => (hcnt i).2.2 4 (by omega) (by omega) (by omega))
    have e1 : (Play.toHand (Play.TrioWithSolo t s)).composition.toSolo = none :=
      toSolo_none (by simp [h3])
    have e2 : (Play.toHand (Play.TrioWithSolo t s)).composition.toChain = none :=
      toChain_none (by simp [h1])
    have e3 : (Play.toHand (Play.TrioWithSolo t s)).composition.toPair = none :=
      toPair_none (by simp [h1])
    have e4 : (Play.toHand (Play.TrioWithSolo t s)).composition.toPairsChain
        = none := toPairsChain_none (by simp [h1])
    have e5 : (Play.toHand (Play.TrioWithSolo t s)).composition.toTrio = none :=
      toTrio_none (by simp [h1])
    have e6 : (Play.toHand (Play.TrioWithSolo t s)).composition.toAirplane
        = none := toAirplane_none (by simp [h1])
    have e7 : (Play.toHand (Play.TrioWithSolo t s)).composition.toTrioWithSolo
        = some (Play.TrioWithSolo t s) := by
      unfold Composition.toTrioWithSolo
      rw [if_pos ⟨by simp [h1], h2, by simp [h3], h4⟩, h1, h3]
      rfl
    unfold Composition.guessPlay predsList
    rw [e1, e2, e3, e4, e5, e6, e7]
    rfl
  | AirplaneWithSolos a s =>
    obtain ⟨hlen2, hrun, hbt, hslen, hssort, hdisj, hnojok⟩ := hp
    have hasort : List.Pairwise (· < ·) a := consecRun_pairwise hrun
    have hane : a ≠ [] := List.ne_nil_of_length_pos (by omega)
    have hsne : s ≠ [] := List.ne_nil_of_length_pos (by omega)
    have hcnt := fun i =>
      two_batch_counts a s 3 1 i (by omega) (by omega) (by omega) hdisj
    have hfilt1 : (List.finRange 15).filter
        (fun i =>
          decide ((Play.toHand (Play.AirplaneWithSolos a s)).counts i = 1)) =
          s :=
      filter_cnt_eq _ _ _ hssort (fun i => (hcnt i).2.1)
    have hfilt3 : (List.finRange 15).filter
        (fun i =>
          decide ((Play.toHand (Play.AirplaneWithSolos a s)).counts i = 3)) =
          a :=
      filter_cnt_eq _ _ _ hasort (fun i => (hcnt i).1)
    have h1 : (Play.toHand (Play.AirplaneWithSolos a s)).composition.solos.ranks
        = s := by
      rw [comp_solos_ranks]
      exact hfilt1
    have h2 : (Play.toHand (Play.AirplaneWithSolos a s)).composition.pairs.ranks
        = [] := by
      rw [comp_pairs_ranks]
      exact filter_cnt_nil _ _
        (fun i => (hcnt i).2.2 2 (by omega) (by omega) (by omega))
    have h3 : (Play.toHand (Play.AirplaneWithSolos a s)).composition.trios.ranks
        = a := by
      rw [comp_trios_ranks]
      exact hfilt3
    have h4 : (Play.toHand (Play.AirplaneWithSolos a s)).composition.fours.ranks
        = [] := by
      rw [comp_fours_ranks]
      exact filter_cnt_nil _ _
        (fun i => (hcnt i).2.2 4 (by omega) (by omega) (by omega))
    have hflag : (Play.toHand
        (Play.AirplaneWithSolos a s)).composition.trios.consecutive = true :=
      (comp_trios_flag _).mpr (by
        rw [hfilt3]
        exact ⟨hbt, hrun⟩)
    have hjok : ¬(s.getD (s.length - 1) rank0 = Rank.redJoker ∧
        s.getD (s.length - 2) rank0 = Rank.blackJoker) := by
      rintro ⟨hrj, hbj⟩
      refine hnojok ⟨?_, ?_⟩
      · rw [← hbj]
        exact getD_mem (by omega) _
      · rw [← hrj]
        exact getD_mem (by omega) _
    have e1 : (Play.toHand (Play.AirplaneWithSolos a s)).composition.toSolo
        = none := toSolo_none (by simp [h3, hane])
    have e2 : (Play.toHand (Play.AirplaneWithSolos a s)).composition.toChain
        = none := toChain_none (by simp [h3, hane])
    have e3 : (Play.toHand (Play.AirplaneWithSolos a s)).composition.toPair
        = none := toPair_none (by simp [h1, hsne])
    have e4 : (Play.toHand (Play.AirplaneWithSolos a s)).composition.toPairsChain
        = none := toPairsChain_none (by simp [h1, hsne])
    have e5 : (Play.toHand (Play.AirplaneWithSolos a s)).composition.toTrio
        = none := toTrio_none (by simp [h1, hsne])
    have e6 : (Play.toHand (Play.AirplaneWithSolos a s)).composition.toAirplane
        = none := toAirplane_none (by simp [h1, hsne])
    have e7 : (Play.toHand
        (Play.AirplaneWithSolos a s)).composition.toTrioWithSolo = none :=
      toTrioWithSolo_none (by
        simp [h1, h2, h3, h4]
        omega)
    have e8 : (Play.toHand
        (Play.AirplaneWithSolos a s)).composition.toAirplaneWithSolos =
        some (Play.AirplaneWithSolos a s) := by
      unfold Composition.toAirplaneWithSolos
      rw [if_pos ⟨by rw [h1, h3]; exact hslen, by rw [h1]; omega,
        by rw [h1]; exact hjok, h2, hflag, h4⟩, h1, h3]
    unfold Composition.guessPlay predsList
    rw [e1, e2, e3, e4, e5, e6, e7, e8]
    rfl
  | TrioWithPair t q =>
    obtain ⟨ht13, hq13, htq⟩ := hp
    have hdisj : ∀ x ∈ [q], x ∉ [t] := by
      intro x hx
      simp only [List.mem_singleton] at hx
      subst hx
      simp only [List.mem_singleton]
      exact fun he => htq he.symm
    have hcnt := fun i =>
      two_batch_counts [t] [q] 3 2 i (by omega) (by omega) (by omega) hdisj
    have hfilt2 : (List.finRange 15).filter
        (fun i => decide ((Play.toHand (Play.TrioWithPair t q)).counts i = 2)) =
          [q] :=
      filter_cnt_eq _ _ _ (by simp) (fun i => (hcnt i).2.1)
    have hfilt3 : (List.finRange 15).filter
        (fun i => decide ((Play.toHand (Play.TrioWithPair t q)).counts i = 3)) =
          [t] :=
      filter_cnt_eq _ _ _ (by simp) (fun i => (hcnt i).1)
    have h1 : (Play.toHand (Play.TrioWithPair t q)).composition.solos.ranks
        = [] := by
      rw [comp_solos_ranks]
      exact filter_cnt_nil _ _
        (fun i => (hcnt i).2.2 1 (by omega) (by omega) (by omega))
    have h2 : (Play.toHand (Play.TrioWithPair t q)).composition.pairs.ranks
        = [q] := by
      rw [comp_pairs_ranks]
      exact hfilt2
    have h3 : (Play.toHand (Play.TrioWithPair t q)).composition.trios.ranks
        = [t] := by
      rw [comp_trios_ranks]
      exact hfilt3
    have h4 : (Play.toHand (Play.TrioWithPair t q)).composition.fours.ranks
        = [] := by
      rw [comp_fours_ranks]
      exact filter_cnt_nil _ _
        (fun i => (hcnt i).2.2 4 (by omega) (by omega) (by omega))
    have e1 : (Play.toHand (Play.TrioWithPair t q)).composition.toSolo = none :=
      toSolo_none (by simp [h1])
    have e2 : (Play.toHand (Play.TrioWithPair t q)).composition.toChain = none :=
      toChain_none (by simp [h1])
    have e3 : (Play.toHand (Play.TrioWithPair t q)).composition.toPair = none :=
      toPair_none (by simp [h3])
    have e4 : (Play.toHand (Play.TrioWithPair t q)).composition.toPairsChain
        = none := toPairsChain_none (by simp [h2])
    have e5 : (Play.toHand (Play.TrioWithPair t q)).composition.toTrio = none :=
      toTrio_none (by simp [h2])
    have e6 : (Play.toHand (Play.TrioWithPair t q)).composition.toAirplane
        = none := toAirplane_none (by simp [h2])
    have e7 : (Play.toHand (Play.TrioWithPair t q)).composition.toTrioWithSolo
        = none := toTrioWithSolo_none (by simp [h1])
    have e8 : (Play.toHand
        (Play.TrioWithPair t q)).composition.toAirplaneWithSolos = none :=
      toAirplaneWithSolos_none (by simp [h1, h3])
    have e9 : (Play.toHand (Play.TrioWithPair t q)).composition.toTrioWithPair
        = some (Play.TrioWithPair t q) := by
      unfold Composition.toTrioWithPair
      rw [if_pos ⟨h1, by simp [h2], by simp [h3], h4⟩, h2, h3]
      rfl
    unfold Composition.guessPlay predsList
    rw [e1, e2, e3, e4, e5, e6, e7, e8, e9]
    rfl
  | AirplaneWithPairs a q =>
    obtain ⟨hlen2, hrun, hbt, hqlen, hqsort, hq13, hdisj⟩ := hp
    have hasort : List.Pairwise (· < ·) a := consecRun_pairwise hrun
    have hane : a ≠ [] := List.ne_nil_of_length_pos (by omega)
    have hqne : q ≠ [] := List.ne_nil_of_length_pos (by omega)
    have hcnt := fun i =>
      two_batch_counts a q 3 2 i (by omega) (by omega) (by omega) hdisj
    have hfilt2 : (List.finRange 15).filter
        (fun i =>
          decide ((Play.toHand (Play.AirplaneWithPairs a q)).counts i = 2)) =
          q :=
      filter_cnt_eq _ _ _ hqsort (fun i => (hcnt i).2.1)
    have hfilt3 : (List.finRange 15).filter
        (fun i =>
          decide ((Play.toHand (Play.AirplaneWithPairs a q)).counts i = 3)) =
          a :=
      filter_cnt_eq _ _ _ hasort (fun i => (hcnt i).1)
    have h1 : (Play.toHand (Play.AirplaneWithPairs a q)).composition.solos.ranks
        = [] := by
      rw [comp_solos_ranks]
      exact filter_cnt_nil _ _
        (fun i => (hcnt i).2.2 1 (by omega) (by omega) (by omega))
    have h2 : (Play.toHand (Play.AirplaneWithPairs a q)).composition.pairs.ranks
        = q := by
      rw [comp_pairs_ranks]
      exact hfilt2
    have h3 : (Play.toHand (Play.AirplaneWithPairs a q)).composition.trios.ranks
        = a := by
      rw [comp_trios_ranks]
      exact hfilt3
    have h4 : (Play.toHand (Play.AirplaneWithPairs a q)).composition.fours.ranks
        = [] := by
      rw [comp_fours_ranks]
      exact filter_cnt_nil _ _
        (fun i => (hcnt i).2.2 4 (by omega) (by omega) (by omega))
    have hflag : (Play.toHand
        (Play.AirplaneWithPairs a q)).composition.trios.consecutive = true :=
      (comp_trios_flag _).mpr (by
        rw [hfilt3]
        exact ⟨hbt, hrun⟩)
    have e1 : (Play.toHand (Play.AirplaneWithPairs a q)).composition.toSolo
        = none := toSolo_none (by simp [h1])
    have e2 : (Play.toHand (Play.AirplaneWithPairs a q)).composition.toChain
        = none := toChain_none (by simp [h1])
    have e3 : (Play.toHand (Play.AirplaneWithPairs a q)).composition.toPair
        = none := toPair_none (by simp [h3, hane])
    have e4 : (Play.toHand
        (Play.AirplaneWithPairs a q)).composition.toPairsChain = none :=
      toPairsChain_none (by simp [h3, hane])
    have e5 : (Play.toHand (Play.AirplaneWithPairs a q)).composition.toTrio
        = none := toTrio_none (by simp [h2, hqne])
    have e6 : (Play.toHand (Play.AirplaneWithPairs a q)).composition.toAirplane
        = none := toAirplane_none (by simp [h2, hqne])
    have e7 : (Play.toHand
        (Play.AirplaneWithPairs a q)).composition.toTrioWithSolo = none :=
      toTrioWithSolo_none (by simp [h1])
    have e8 : (Play.toHand
        (Play.AirplaneWithPairs a q)).composition.toAirplaneWithSolos = none :=
      toAirplaneWithSolos_none (by simp [h1])
    have e9 : (Play.toHand
        (Play.AirplaneWithPairs a q)).composition.toTrioWithPair = none :=
      toTrioWithPair_none (by
        simp [h1, h2, h3, h4]
        omega)
    have e10 : (Play.toHand
        (Play.AirplaneWithPairs a q)).composition.toAirplaneWithPairs =
        some (Play.AirplaneWithPairs a q) := by
      unfold Composition.toAirplaneWithPairs
      rw [if_pos ⟨h1, by rw [h2, h3]; exact hqlen, by rw [h3]; exact hlen2,
        hflag, h4⟩, h2, h3]
    unfold Composition.guessPlay predsList
    rw [e1, e2, e3, e4, e5, e6, e7, e8, e9, e10]
    rfl
  | Bomb r =>
    have hcnt := fun i => one_batch_counts [r] 4 i (by omega)
    have hfilt4 : (List.finRange 15).filter
        (fun i => decide ((Play.toHand (Play.Bomb r)).counts i = 4)) = [r] :=
      filter_cnt_eq _ _ _ (by simp) (fun i => (hcnt i).1)
    have h1 : (Play.toHand (Play.Bomb r)).composition.solos.ranks = [] := by
      rw [comp_solos_ranks]
      exact filter_cnt_nil _ _ (fun i => (hcnt i).2 1 (by omega) (by omega))
    have h2 : (Play.toHand (Play.Bomb r)).composition.pairs.ranks = [] := by
      rw [comp_pairs_ranks]
      exact filter_cnt_nil _ _ (fun i => (hcnt i).2 2 (by omega) (by omega))
    have h3 : (Play.toHand (Play.Bomb r)).composition.trios.ranks = [] := by
      rw [comp_trios_ranks]
      exact filter_cnt_nil _ _ (fun i => (hcnt i).2 3 (by omega) (by omega))
    have h4 : (Play.toHand (Play.Bomb r)).composition.fours.ranks = [r] := by
      rw [comp_fours_ranks]
      exact hfilt4
    have e1 : (Play.toHand (Play.Bomb r)).composition.toSolo = none :=
      toSolo_none (by simp [h1])
    have e2 : (Play.toHand (Play.Bomb r)).composition.toChain = none :=
      toChain_none (by simp [h1])
    have e3 : (Play.toHand (Play.Bomb r)).composition.toPair = none :=
      toPair_none (by simp [h2])
    have e4 : (Play.toHand (Play.Bomb r)).composition.toPairsChain = none :=
      toPairsChain_none (by simp [h2])
    have e5 : (Play.toHand (Play.Bomb r)).composition.toTrio = none :=
      toTrio_none (by simp [h3])
    have e6 : (Play.toHand (Play.Bomb r)).composition.toAirplane = none :=
      toAirplane_none (by simp [h3])
    have e7 : (Play.toHand (Play.Bomb r)).composition.toTrioWithSolo = none :=
      toTrioWithSolo_none (by simp [h1])
    have e8 : (Play.toHand (Play.Bomb r)).composition.toAirplaneWithSolos
        = none := toAirplaneWithSolos_none (by simp [h1])
    have e9 : (Play.toHand (Play.Bomb r)).composition.toTrioWithPair = none :=
      toTrioWithPair_none (by simp [h2])
    have e10 : (Play.toHand (Play.Bomb r)).composition.toAirplaneWithPairs
        = none := toAirplaneWithPairs_none (by simp [h3])
    have e11 : (Play.toHand (Play.Bomb r)).composition.toBomb =
        some (Play.Bomb r) := by
      unfold Composition.toBomb
      rw [if_pos ⟨h1, h2, h3, by simp [h4]⟩, h4]
      rfl
    unfold Composition.guessPlay predsList
    rw [e1, e2, e3, e4, e5, e6, e7, e8, e9, e10, e11]
    rfl
  | FourWithDualSolo f d =>
    obtain ⟨hf13, hlt, hne1, hne2, hnjk⟩ := hp
    have hsort : List.Pairwise (· < ·) [d.1, d.2] := by
      simp [List.pairwise_cons, hlt]
    have hdisj : ∀ x ∈ [d.1, d.2], x ∉ [f] := by
      intro x hx
      simp only [List.mem_cons, List.not_mem_nil, or_false] at hx ⊢
      rcases hx with hx | hx <;> subst hx
      · simpa using hne1
      · simpa using hne2
    have hcnt := fun i =>
      two_batch_counts [f] [d.1, d.2] 4 1 i (by omega) (by omega) (by omega)
        hdisj
    have hfilt1 : (List.finRange 15).filter
        (fun i =>
          decide ((Play.toHand (Play.FourWithDualSolo f d)).counts i = 1)) =
          [d.1, d.2] :=
      filter_cnt_eq _ _ _ hsort (fun i => (hcnt i).2.1)
    have hfilt4 : (List.finRange 15).filter
        (fun i =>
          decide ((Play.toHand (Play.FourWithDualSolo f d)).counts i = 4)) =
          [f] :=
      filter_cnt_eq _ _ _ (by simp) (fun i => (hcnt i).1)
    have h1 : (Play.toHand (Play.FourWithDualSolo f d)).composition.solos.ranks
        = [d.1, d.2] := by
      rw [comp_solos_ranks]
      exact hfilt1
    have h2 : (Play.toHand (Play.FourWithDualSolo f d)).composition.pairs.ranks
        = [] := by
      rw [comp_pairs_ranks]
      exact filter_cnt_nil _ _
        (fun i => (hcnt i).2.2 2 (by omega) (by omega) (by omega))
    have h3 : (Play.toHand (Play.FourWithDualSolo f d)).composition.trios.ranks
        = [] := by
      rw [comp_trios_ranks]
      exact filter_cnt_nil _ _
        (fun i => (hcnt i).2.2 3 (by omega) (by omega) (by omega))
    have h4 : (Play.toHand (Play.FourWithDualSolo f d)).composition.fours.ranks
        = [f] := by
      rw [comp_fours_ranks]
      exact hfilt4
    have hd1bj : d.1 ≠ Rank.blackJoker := by
      intro hbj
      rw [hbj] at hlt
      have hv13 : (13 : Nat) < d.2.val := hlt
      have hv15 := d.2.isLt
      exact hnjk ⟨hbj, Fin.ext (show d.2.val = 14 by omega)⟩
    have e1 : (Play.toHand (Play.FourWithDualSolo f d)).composition.toSolo
        = none := toSolo_none (by simp [h1])
    have e2 : (Play.toHand (Play.FourWithDualSolo f d)).composition.toChain
        = none := toChain_none (by simp [h1])
    have e3 : (Play.toHand (Play.FourWithDualSolo f d)).composition.toPair
        = none := toPair_none (by simp [h1])
    have e4 : (Play.toHand
        (Play.FourWithDualSolo f d)).composition.toPairsChain = none :=
      toPairsChain_none (by simp [h1])
    have e5 : (Play.toHand (Play.FourWithDualSolo f d)).composition.toTrio
        = none := toTrio_none (by simp [h1])
    have e6 : (Play.toHand (Play.FourWithDualSolo f d)).composition.toAirplane
        = none := toAirplane_none (by simp [h1])
    have e7 : (Play.toHand
        (Play.FourWithDualSolo f d)).composition.toTrioWithSolo = none :=
      toTrioWithSolo_none (by simp [h1])
    have e8 : (Play.toHand
        (Play.FourWithDualSolo f d)).composition.toAirplaneWithSolos = none :=
      toAirplaneWithSolos_none (by simp [h1, h3])
    have e9 : (Play.toHand
        (Play.FourWithDualSolo f d)).composition.toTrioWithPair = none :=
      toTrioWithPair_none (by simp [h1])
    have e10 : (Play.toHand
        (Play.FourWithDualSolo f d)).composition.toAirplaneWithPairs = none :=
      toAirplaneWithPairs_none (by simp [h1])
    have e11 : (Play.toHand (Play.FourWithDualSolo f d)).composition.toBomb
        = none := toBomb_none (by simp [h1])
    have e12 : (Play.toHand
        (Play.FourWithDualSolo f d)).composition.toFourWithDualSolo =
        some (Play.FourWithDualSolo f d) := by
      unfold Composition.toFourWithDualSolo
      rw [if_pos ⟨by simp [h1], by rw [h1]; exact hd1bj, h2, h3,
        by simp [h4]⟩, h1, h4]
      rfl
    unfold Composition.guessPlay predsList
    rw [e1, e2, e3, e4, e5, e6, e7, e8, e9, e10, e11, e12]
    rfl
  | FourWithDualPair f d =>
    obtain ⟨hf13, hlt, hd113, hd213, hne1, hne2⟩ := hp
    have hsort : List.Pairwise (· < ·) [d.1, d.2] := by
      simp [List.pairwise_cons, hlt]
    have hdisj : ∀ x ∈ [d.1, d.2], x ∉ [f] := by
      intro x hx
      simp only [List.mem_cons, List.not_mem_nil, or_false] at hx ⊢
      rcases hx with hx | hx <;> subst hx
      · simpa using hne1
      · simpa using hne2
    have hcnt := fun i =>
      two_batch_counts [f] [d.1, d.2] 4 2 i (by omega) (by omega) (by omega)
        hdisj
    have hfilt2 : (List.finRange 15).filter
        (fun i =>
          decide ((Play.toHand (Play.FourWithDualPair f d)).counts i = 2)) =
          [d.1, d.2] :=
      filter_cnt_eq _ _ _ hsort (fun i => (hcnt i).2.1)
    have hfilt4 : (List.finRange 15).filter
        (fun i =>
          decide ((Play.toHand (Play.FourWithDualPair f d)).counts i = 4)) =
          [f] :=
      filter_cnt_eq _ _ _ (by simp) (fun i => (hcnt i).1)
    have h1 : (Play.toHand (Play.FourWithDualPair f d)).composition.solos.ranks
        = [] := by
      rw [comp_solos_ranks]
      exact filter_cnt_nil _ _
        (fun i => (hcnt i).2.2 1 (by omega) (by omega) (by omega))
    have h2 : (Play.toHand (Play.FourWithDualPair f d)).composition.pairs.ranks
        = [d.1, d.2] := by
      rw [comp_pairs_ranks]
      exact hfilt2
    have h3 : (Play.toHand (Play.FourWithDualPair f d)).composition.trios.ranks
        = [] := by
      rw [comp_trios_ranks]
      exact filter_cnt_nil _ _
        (fun i => (hcnt i).2.2 3 (by omega) (by omega) (by omega))
    have h4 : (Play.toHand (Play.FourWithDualPair f d)).composition.fours.ranks
        = [f] := by
      rw [comp_fours_ranks]
      exact hfilt4
    have e1 : (Play.toHand (Play.FourWithDualPair f d)).composition.toSolo
        = none := toSolo_none (by simp [h2])
    have e2 : (Play.toHand (Play.FourWithDualPair f d)).composition.toChain
        = none := toChain_none (by simp [h2])
    have e3 : (Play.toHand (Play.FourWithDualPair f d)).composition.toPair
        = none := toPair_none (by simp [h2])
    have e4 : (Play.toHand
        (Play.FourWithDualPair f d)).composition.toPairsChain = none :=
      toPairsChain_none (by simp [h2])
    have e5 : (Play.toHand (Play.FourWithDualPair f d)).composition.toTrio
        = none := toTrio_none (by simp [h2])
    have e6 : (Play.toHand (Play.FourWithDualPair f d)).composition.toAirplane
        = none := toAirplane_none (by simp [h2])
    have e7 : (Play.toHand
        (Play.FourWithDualPair f d)).composition.toTrioWithSolo = none :=
      toTrioWithSolo_none (by simp [h1])
    have e8 : (Play.toHand
        (Play.FourWithDualPair f d)).composition.toAirplaneWithSolos = none :=
      toAirplaneWithSolos_none (by simp [h1, h3])
    have e9 : (Play.toHand
        (Play.FourWithDualPair f d)).composition.toTrioWithPair = none :=
      toTrioWithPair_none (by simp [h2])
    have e10 : (Play.toHand
        (Play.FourWithDualPair f d)).composition.toAirplaneWithPairs = none :=
      toAirplaneWithPairs_none (by simp [h2, h3])
    have e11 : (Play.toHand (Play.FourWithDualPair f d)).composition.toBomb
        = none := toBomb_none (by simp [h2])
    have e12 : (Play.toHand
        (Play.FourWithDualPair f d)).composition.toFourWithDualSolo = none :=
      toFourWithDualSolo_none (by simp [h1])
    have e13 : (Play.toHand
        (Play.FourWithDualPair f d)).composition.toFourWithDualPair =
        some (Play.FourWithDualPair f d) := by
      unfold Composition.toFourWithDualPair
      rw [if_pos ⟨h1, by simp [h2], h3, by simp [h4]⟩, h2, h4]
      rfl
    unfold Composition.guessPlay predsList
    rw [e1, e2, e3, e4, e5, e6, e7, e8, e9, e10, e11, e12, e13]
    rfl
  | Rocket =>
    have hcnt := fun i =>
      one_batch_counts [Rank.blackJoker, Rank.redJoker] 1 i (by omega)
    have hfilt1 : (List.finRange 15).filter
        (fun i => decide ((Play.toHand Play.Rocket).counts i = 1)) =
          [Rank.blackJoker, Rank.redJoker] :=
      filter_cnt_eq _ _ _ (by decide) (fun i => (hcnt i).1)
    have h1 : (Play.toHand Play.Rocket).composition.solos.ranks
        = [Rank.blackJoker, Rank.redJoker] := by
      rw [comp_solos_ranks]
      exact hfilt1
    have h2 : (Play.toHand Play.Rocket).composition.pairs.ranks = [] := by
      rw [comp_pairs_ranks]
      exact filter_cnt_nil _ _ (fun i => (hcnt i).2 2 (by omega) (by omega))
    have h3 : (Play.toHand Play.Rocket).composition.trios.ranks = [] := by
      rw [comp_trios_ranks]
      exact filter_cnt_nil _ _ (fun i => (hcnt i).2 3 (by omega) (by omega))
    have h4 : (Play.toHand Play.Rocket).composition.fours.ranks = [] := by
      rw [comp_fours_ranks]
      exact filter_cnt_nil _ _ (fun i => (hcnt i).2 4 (by omega) (by omega))
    have e1 : (Play.toHand Play.Rocket).composition.toSolo = none :=
      toSolo_none (by simp [h1])
    have e2 : (Play.toHand Play.Rocket).composition.toChain = none :=
      toChain_none (by simp [h1])
    have e3 : (Play.toHand Play.Rocket).composition.toPair = none :=
      toPair_none (by simp [h1])
    have e4 : (Play.toHand Play.Rocket).composition.toPairsChain = none :=
      toPairsChain_none (by simp [h1])
    have e5 : (Play.toHand Play.Rocket).composition.toTrio = none :=
      toTrio_none (by simp [h1])
    have e6 : (Play.toHand Play.Rocket).composition.toAirplane = none :=
      toAirplane_none (by simp [h1])
    have e7 : (Play.toHand Play.Rocket).composition.toTrioWithSolo = none :=
      toTrioWithSolo_none (by simp [h1])
    have e8 : (Play.toHand Play.Rocket).composition.toAirplaneWithSolos
        = none := toAirplaneWithSolos_none (by simp [h1, h3])
    have e9 : (Play.toHand Play.Rocket).composition.toTrioWithPair = none :=
      toTrioWithPair_none (by simp [h1])
    have e10 : (Play.toHand Play.Rocket).composition.toAirplaneWithPairs
        = none := toAirplaneWithPairs_none (by simp [h1])
    have e11 : (Play.toHand Play.Rocket).composition.toBomb = none :=
      toBomb_none (by simp [h1])
    have e12 : (Play.toHand Play.Rocket).composition.toFourWithDualSolo
        = none := toFourWithDualSolo_none (by simp [h1, rank0, Rank.blackJoker])
    have e13 : (Play.toHand Play.Rocket).composition.toFourWithDualPair
        = none := toFourWithDualPair_none (by simp [h1])
    have e14 : (Play.toHand Play.Rocket).composition.toRocket =
        some Play.Rocket := by
      unfold Composition.toRocket
      rw [if_pos ⟨by simp [h1], by rw [h1]; rfl, by rw [h1]; rfl, h2, h3,
        h4⟩]
    unfold Composition.guessPlay predsList
    rw [e1, e2, e3, e4, e5, e6, e7, e8, e9, e10, e11, e12, e13, e14]
    rfl

/-- Witness for C1: a concrete TrioWithSolo round-trips through
`to_hand` and `guess_play`. -/
theorem roundTrip_witness :
    (Play.toHand (Play.TrioWithSolo ⟨4, by decide⟩ ⟨9, by decide⟩)).composition.guessPlay
      = some (Play.TrioWithSolo ⟨4, by decide⟩ ⟨9, by decide⟩) :=
  roundTrip _ (by decide)

/-- `slice::chunk_by`: split into maximal runs of adjacent elements
satisfying the relation. -/
def chunkBy (R : Rank → Rank → Bool) : List Rank → List (List Rank)
  | [] => []
  | [a] => [[a]]
  | a :: b :: l =>
    match chunkBy R (b :: l) with
    | [] => [[a]]
    | c :: cs => if R a b then (a :: c) :: cs else [a] :: c :: cs

/-- `slice::windows`: all contiguous sub-slices of width `n` (used only
with `1 ≤ n`). -/
def windows (n : Nat) : List Rank → List (List Rank)
  | [] => []
  | a :: l => (if n ≤ l.length + 1 then [(a :: l).take n] else []) ++ windows n l

/-- `itertools::combinations`: all `k`-element sublists in order. -/
def combinations : Nat → List Rank → List (List Rank)
  | 0, _ => [[]]
  | _ + 1, [] => []
  | k + 1, a :: l =>
    (combinations k l).map (fun c => a :: c) ++ combinations (k + 1) l

/-- `PlaySpec` (`src/core/search.rs` lines 14–48), with the primal
count range already resolved to inclusive bounds (the `RangeBounds`
resolution of `plays`, lines 98–110, before the `.max(1)`/`.min(12)`
clamps). -/
structure PlaySpec where
  primalSize : Nat
  primalCountMin : Nat
  primalCountMax : Nat
  kickerSize : Nat
  kickerCount : Nat → Nat

/-- `SearchExt::plays` (`src/core/search.rs` lines 92–194): enumerate
candidate hands for each primal run length, sliding a window over each
maximal consecutive run of qualifying ranks, then attaching every
admissible kicker combination; jokers are kept out of the main kicker
pool and reinserted one at a time (never both). -/
def Hand.plays (h : Hand) (spec : PlaySpec) : List Hand :=
  let pmin := max spec.primalCountMin 1
  let pmax := min spec.primalCountMax 12
  ((List.range' pmin (pmax + 1 - pmin)).filterMap (fun pc =>
      let kc := spec.kickerCount pc
      if 15 < kc + pc then none else some (pc, kc))).flatMap
    (fun pck =>
      let qualified := (List.finRange 15).filter
        (fun r => decide (spec.primalSize ≤ h.counts r) &&
          (decide (r.val < 12) || decide (pck.1 = 1)))
      (chunkBy (fun a b => decide (a.val + 1 = b.val)) qualified).flatMap
        (fun chunk =>
          (windows pck.1 chunk).flatMap
            (fun primal =>
              let jokers := if pck.2 ≠ 0 then
                  (List.finRange 15).filter (fun r =>
                    decide (spec.kickerSize ≤ h.counts r) &&
                    decide (r ∉ primal) && decide (12 < r.val))
                else []
              let kickerCandidates := if pck.2 ≠ 0 then
                  (List.finRange 15).filter (fun r =>
                    decide (spec.kickerSize ≤ h.counts r) &&
                    decide (r ∉ primal) && decide (¬12 < r.val))
                else []
              (combinations pck.2 kickerCandidates ++
                jokers.flatMap (fun j =>
                  (combinations (pck.2 - 1) kickerCandidates).map
                    (fun kicker => kicker ++ [j]))).map
                (fun kicker =>
                  ⟨writeAll (writeAll zeroCounts primal spec.primalSize)
                    kicker spec.kickerSize⟩))))

theorem chunkBy_subset (R : Rank → Rank → Bool) :
    ∀ (l : List Rank) (c : List Rank), c ∈ chunkBy R l → ∀ x ∈ c, x ∈ l
  | [], c, hc => by simp [chunkBy] at hc
  | [a], c, hc => by
    simp only [chunkBy, List.mem_singleton] at hc
    subst hc
    intro x hx
    exact hx
  | a :: b :: t, c, hc => by
    intro x hx
    have hunf : chunkBy R (a :: b :: t) =
        match chunkBy R (b :: t) with
        | [] => [[a]]
        | c :: cs => if R a b then (a :: c) :: cs else [a] :: c :: cs := rfl
    rcases hrec : chunkBy R (b :: t) with _ | ⟨c0, cs⟩
    · have hred : chunkBy R (a :: b :: t) = [[a]] := by rw [hunf, hrec]
      rw [hred] at hc
      simp only [List.mem_singleton] at hc
      subst hc
      simp only [List.mem_singleton] at hx
      subst hx
      simp
    · have hred : chunkBy R (a :: b :: t) =
          if R a b then (a :: c0) :: cs else [a] :: c0 :: cs := by
        rw [hunf, hrec]
      rw [hred] at hc
      by_cases hR : R a b
      · rw [if_pos hR] at hc
        rcases List.mem_cons.mp hc with hc1 | hc2
        · subst hc1
          rcases List.mem_cons.mp hx with hx1 | hx2
          · subst hx1
            simp
          · have : x ∈ b :: t := chunkBy_subset R (b :: t) c0
              (by rw [hrec]; simp) x hx2
            exact List.mem_cons_of_mem a this
        · have : x ∈ b :: t := chunkBy_subset R (b :: t) c
            (by rw [hrec]; simp [hc2]) x hx
          exact List.mem_cons_of_mem a this
      · rw [if_neg hR] at hc
        rcases List.mem_cons.mp hc with hc1 | hc2
        · subst hc1
          simp only [List.mem_singleton] at hx
          subst hx
          simp
        · have : x ∈ b :: t := chunkBy_subset R (b :: t) c
            (by rw [hrec]; exact hc2) x hx
          exact List.mem_cons_of_mem a this

theorem windows_subset (n : Nat) :
    ∀ (l : List Rank) (w : List Rank), w ∈ windows n l → ∀ x ∈ w, x ∈ l
  | [], w, hw => by simp [windows] at hw
  | a :: l, w, hw => by
    intro x hx
    have hunf : windows n (a :: l) =
        (if n ≤ l.length + 1 then [(a :: l).take n] else []) ++ windows n l :=
      rfl
    rw [hunf] at hw
    rcases List.mem_append.mp hw with h1 | h2
    · split at h1
      · simp only [List.mem_singleton] at h1
        subst h1
        exact List.take_subset _ _ hx
      · simp at h1
    · exact List.mem_cons_of_mem a (windows_subset n l w h2 x hx)

theorem combinations_subset :
    ∀ (k : Nat) (l : List Rank) (c : List Rank), c ∈ combinations k l →
      ∀ x ∈ c, x ∈ l
  | 0, l, c, hc => by
    simp only [combinations, List.mem_singleton] at hc
    subst hc
    intro x hx
    simp at hx
  | k + 1, [], c, hc => by simp [combinations] at hc
  | k + 1, a :: l, c, hc => by
    intro x hx
    have hunf : combinations (k + 1) (a :: l) =
        (combinations k l).map (fun c => a :: c) ++ combinations (k + 1) l :=
      rfl
    rw [hunf] at hc
    rcases List.mem_append.mp hc with h1 | h2
    · obtain ⟨c', hc', hcc⟩ := List.mem_map.mp h1
      subst hcc
      rcases List.mem_cons.mp hx with hx1 | hx2
      · subst hx1
        simp
      · exact List.mem_cons_of_mem a
          (combinations_subset k l c' hc' x hx2)
    · exact List.mem_cons_of_mem a
        (combinations_subset (k + 1) l c h2 x hx)

/-- Decomposition of a search emission: it is the two-batch write of a
primal window and a kicker list, where every primal rank qualifies
(count at least the primal size, and below Two unless the run length is
one) and the kicker list holds at most one joker. -/
theorem plays_mem_decomp (h : Hand) (spec : PlaySpec) (x : Hand)
    (hx : x ∈ h.plays spec) :
    ∃ pc primal kicker,
      max spec.primalCountMin 1 ≤ pc ∧ pc ≤ min spec.primalCountMax 12 ∧
      (∀ r ∈ primal, spec.primalSize ≤ h.counts r ∧ (r.val < 12 ∨ pc = 1)) ∧
      kicker.countP (fun r => decide (12 < r.val)) ≤ 1 ∧
      x = ⟨writeAll (writeAll zeroCounts primal spec.primalSize) kicker
        spec.kickerSize⟩ := by
  unfold Hand.plays at hx
  simp only [List.mem_flatMap, List.mem_filterMap, List.mem_map,
    List.mem_append, List.mem_range'_1] at hx
  obtain ⟨pck, ⟨pc0, ⟨hpc0lo, hpc0hi⟩, hguard⟩, chunk, hchunk, primal, hwin,
    kicker, hkick, hemit⟩ := hx
  split at hguard
  · exact Option.noConfusion hguard
  · have hpck : pck = (pc0, spec.kickerCount pc0) := (Option.some.inj hguard).symm
    subst hpck
    dsimp only at hchunk hwin hkick
    refine ⟨pc0, primal, kicker, hpc0lo, by omega, ?_, ?_, hemit.symm⟩
    · intro r hr
      have hq : r ∈ (List.finRange 15).filter
          (fun r => decide (spec.primalSize ≤ h.counts r) &&
            (decide (r.val < 12) || decide (pc0 = 1))) := by
        have h1 := windows_subset _ _ _ hwin r hr
        exact chunkBy_subset _ _ _ hchunk r h1
      rw [List.mem_filter] at hq
      have := hq.2
      simp only [Bool.and_eq_true, Bool.or_eq_true, decide_eq_true_eq] at this
      exact this
    · rcases hkick with hmain | hjok
      · have hall : ∀ r ∈ kicker, ¬(12 < r.val) := by
          intro r hr
          by_cases hkc : spec.kickerCount pc0 ≠ 0
          · have hrc := combinations_subset _ _ _ (by
              simpa [if_pos hkc] using hmain) r hr
            rw [List.mem_filter] at hrc
            have := hrc.2
            simp only [Bool.and_eq_true, decide_eq_true_eq,
              decide_eq_true_iff, Nat.not_lt] at this
            omega
          · simp only [ne_eq, not_not] at hkc
            rw [hkc] at hmain
            simp only [combinations, List.mem_singleton] at hmain
            subst hmain
            simp at hr
        have : kicker.countP (fun r => decide (12 < r.val)) = 0 :=
          List.countP_eq_zero.mpr (by
            intro r hr
            simpa using hall r hr)
        omega
      · obtain ⟨j, hj, base, hbase, hkb⟩ := hjok
        by_cases hkc : spec.kickerCount pc0 ≠ 0
        · have hjall : ∀ r ∈ base, ¬(12 < r.val) := by
            intro r hr
            have hrc := combinations_subset _ _ _ hbase r hr
            rw [if_pos hkc, List.mem_filter] at hrc
            have := hrc.2
            simp only [Bool.and_eq_true, decide_eq_true_eq,
              decide_eq_true_iff, Nat.not_lt] at this
            omega
          subst hkb
          rw [List.countP_append]
          have h0 : base.countP (fun r => decide (12 < r.val)) = 0 :=
            List.countP_eq_zero.mpr (by
              intro r hr
              simpa using hjall r hr)
          simp only [h0, List.countP_cons, List.countP_nil]
          split <;> omega
        · simp only [ne_eq, not_not] at hkc
          rw [hkc] at hj
          simp at hj

/-- In a strictly ascending rank list containing both jokers, the last
element is RedJoker and the second-to-last is BlackJoker. -/
theorem sorted_getD_top_two {l : List Rank} (hs : List.Pairwise (· < ·) l)
    (h13 : Rank.blackJoker ∈ l) (h14 : Rank.redJoker ∈ l) :
    l.getD (l.length - 1) rank0 = Rank.redJoker ∧
    l.getD (l.length - 2) rank0 = Rank.blackJoker := by
  obtain ⟨i13, hi13, he13⟩ := List.getElem_of_mem h13
  obtain ⟨i14, hi14, he14⟩ := List.getElem_of_mem h14
  have hpg := List.pairwise_iff_getElem.mp hs
  have hne1314 : i13 ≠ i14 := by
    intro he
    subst he
    exact absurd (he13.symm.trans he14) (by decide)
  have hlen2 : 2 ≤ l.length := by omega
  have hi14top : i14 = l.length - 1 := by
    by_contra hne
    have hlt : i14 < l.length - 1 := by omega
    have hcmp := hpg i14 (l.length - 1) (by omega) (by omega) (by omega)
    rw [he14] at hcmp
    have hb := (l.get ⟨l.length - 1, by omega⟩).isLt
    have hv : (14 : Nat) < (l.get ⟨l.length - 1, by omega⟩).val := hcmp
    omega
  subst hi14top
  have hi13top : i13 = l.length - 2 := by
    by_contra hne
    have hlt : i13 < l.length - 2 := by omega
    have hcmp1 := hpg i13 (l.length - 2) (by omega) (by omega) (by omega)
    have hcmp2 := hpg (l.length - 2) (l.length - 1) (by omega) (by omega)
      (by omega)
    rw [he13] at hcmp1
    rw [he14] at hcmp2
    have hv1 : (13 : Nat) < (l.get ⟨l.length - 2, by omega⟩).val := hcmp1
    have hv2 : (l.get ⟨l.length - 2, by omega⟩).val < 14 := hcmp2
    omega
  subst hi13top
  constructor
  · rw [List.getD_eq_getElem l rank0 (by omega)]
    exact he14
  · rw [List.getD_eq_getElem l rank0 (by omega)]
    exact he13

/-- C5: the classifier never emits an AirplaneWithSolos whose solo
kickers contain both jokers, nor a FourWithDualSolo whose two solos are
the two jokers; and every search emission attaches a kicker list
holding at most one joker. -/
theorem no_concealed_rocket :
    (∀ (h : Hand) (a s : List Rank),
      (Hand.composition h).toAirplaneWithSolos =
        some (Play.AirplaneWithSolos a s) →
      ¬(Rank.blackJoker ∈ s ∧ Rank.redJoker ∈ s)) ∧
    (∀ (h : Hand) (f : Rank) (d : Rank × Rank),
      (Hand.composition h).toFourWithDualSolo =
        some (Play.FourWithDualSolo f d) →
      ¬(Rank.blackJoker ∈ [d.1, d.2] ∧ Rank.redJoker ∈ [d.1, d.2])) ∧
    (∀ (h : Hand) (spec : PlaySpec) (x : Hand), x ∈ h.plays spec →
      ∃ primal kicker,
        x = ⟨writeAll (writeAll zeroCounts primal spec.primalSize) kicker
          spec.kickerSize⟩ ∧
        kicker.countP (fun r => decide (12 < r.val)) ≤ 1) := by
  refine ⟨?_, ?_, ?_⟩
  · intro h a s hsome hjok
    unfold Composition.toAirplaneWithSolos at hsome
    split at hsome
    case isTrue hcond =>
      simp only [Option.some.injEq, Play.AirplaneWithSolos.injEq] at hsome
      obtain ⟨-, hs⟩ := hsome
      subst hs
      have hsorted : List.Pairwise (· < ·) (Hand.composition h).solos.ranks := by
        rw [comp_solos_ranks]
        exact sorted_filter_finRange _
      exact hcond.2.2.1 ⟨(sorted_getD_top_two hsorted hjok.1 hjok.2).1,
        (sorted_getD_top_two hsorted hjok.1 hjok.2).2⟩
    case isFalse =>
      exact Option.noConfusion hsome
  · intro h f d hsome hjok
    unfold Composition.toFourWithDualSolo at hsome
    split at hsome
    case isTrue hcond =>
      simp only [Option.some.injEq, Play.FourWithDualSolo.injEq] at hsome
      obtain ⟨-, hd⟩ := hsome
      have hsorted : List.Pairwise (· < ·) (Hand.composition h).solos.ranks := by
        rw [comp_solos_ranks]
        exact sorted_filter_finRange _
      have hlen := hcond.1
      rcases hshape : (Hand.composition h).solos.ranks with _ | ⟨x, _ | ⟨y, t⟩⟩
      · rw [hshape] at hlen
        simp at hlen
      · rw [hshape] at hlen
        simp at hlen
      · rw [hshape] at hlen
        have ht : t = [] := by
          simp only [List.length_cons] at hlen
          exact List.length_eq_zero.mp (by omega)
        subst ht
        rw [hshape] at hsorted
        have hxy : x < y := (List.pairwise_cons.mp hsorted).1 y (by simp)
        have hgd0 := hcond.2.1
        rw [hshape] at hgd0
        rw [← hd, hshape] at hjok
        simp only [List.getD_cons_zero, List.getD_cons_succ,
          List.mem_cons, List.not_mem_nil, or_false] at hjok hgd0
        obtain ⟨hbj, hrj⟩ := hjok
        have hxv := x.isLt
        have hyv := y.isLt
        have hxyv : x.val < y.val := hxy
        have hbjv : (13 : Nat) = x.val ∨ (13 : Nat) = y.val := by
          rcases hbj with hb | hb
          · exact Or.inl (congrArg Fin.val hb)
          · exact Or.inr (congrArg Fin.val hb)
        have hrjv : (14 : Nat) = x.val ∨ (14 : Nat) = y.val := by
          rcases hrj with hb | hb
          · exact Or.inl (congrArg Fin.val hb)
          · exact Or.inr (congrArg Fin.val hb)
        have hgd0v : x.val ≠ 13 := fun hv => hgd0 (Fin.ext hv)
        omega
    case isFalse =>
      exact Option.noConfusion hsome
  · intro h spec x hx
    obtain ⟨pc, primal, kicker, -, -, -, hcount, hemit⟩ :=
      plays_mem_decomp h spec x hx
    exact ⟨primal, kicker, hemit, hcount⟩

/-- Witness for C5: a concrete airplane-with-solos composition accepted
by the classifier has no pair of jokers among its kickers, by direct
application of the theorem. -/
theorem no_concealed_rocket_witness :
    ¬(Rank.blackJoker ∈ [(⟨2, by decide⟩ : Rank), ⟨3, by decide⟩] ∧
      Rank.redJoker ∈ [(⟨2, by decide⟩ : Rank), ⟨3, by decide⟩]) :=
  no_concealed_rocket.1
    ⟨fun i => if i.val < 2 then 3 else if i.val < 4 then 1 else 0⟩
    [⟨0, by decide⟩, ⟨1, by decide⟩] [⟨2, by decide⟩, ⟨3, by decide⟩]
    (by decide)

/-- C9: every search emission whose run length exceeds one draws its
primal window from ranks strictly below Two; in particular the Chain
search over the full deck never touches Two or a joker. -/
theorem chain_windows_below_two :
    (∀ (h : Hand) (spec : PlaySpec) (x : Hand), x ∈ h.plays spec →
      ∃ pc primal kicker,
        max spec.primalCountMin 1 ≤ pc ∧ pc ≤ min spec.primalCountMax 12 ∧
        (1 < pc → ∀ r ∈ primal, r.val < 12) ∧
        x = ⟨writeAll (writeAll zeroCounts primal spec.primalSize) kicker
          spec.kickerSize⟩) ∧
    (∀ x ∈ fullDeck.plays ⟨1, 5, 12, 0, fun _ => 0⟩,
      x.counts ⟨12, by decide⟩ = 0 ∧ x.counts ⟨13, by decide⟩ = 0 ∧
      x.counts ⟨14, by decide⟩ = 0) := by
  constructor
  · intro h spec x hx
    obtain ⟨pc, primal, kicker, hlo, hhi, hqual, -, hemit⟩ :=
      plays_mem_decomp h spec x hx
    refine ⟨pc, primal, kicker, hlo, hhi, ?_, hemit⟩
    intro hpc r hr
    rcases (hqual r hr).2 with h12 | h1
    · exact h12
    · omega
  · intro x hx
    obtain ⟨pc, primal, kicker, hlo, -, hqual, -, hemit⟩ :=
      plays_mem_decomp fullDeck ⟨1, 5, 12, 0, fun _ => 0⟩ x hx
    have hlo5 : max (5 : Nat) 1 ≤ pc := hlo
    have hpc5 : 5 ≤ pc := by omega
    have hprim : ∀ r ∈ primal, r.val < 12 := by
      intro r hr
      rcases (hqual r hr).2 with h12 | h1
      · exact h12
      · omega
    have hval : ∀ j : Fin 15, 12 ≤ j.val → x.counts j = 0 := by
      intro j hj
      rw [hemit]
      show writeAll (writeAll zeroCounts primal 1) kicker 0 j = 0
      rw [writeAll_apply, writeAll_apply]
      by_cases hjk : j ∈ kicker
      · simp [hjk]
      · rw [if_neg hjk]
        by_cases hjp : j ∈ primal
        · have := hprim j hjp
          omega
        · rw [if_neg hjp]
          rfl
    exact ⟨hval _ (by decide), hval _ (by decide), hval _ (by decide)⟩

/-- Witness for C9: a concrete emission of the Solo search over the
full deck decomposes as the theorem states. -/
theorem chain_windows_below_two_witness :
    ∃ pc primal kicker,
      max (1 : Nat) 1 ≤ pc ∧ pc ≤ min 1 12 ∧
      (1 < pc → ∀ r ∈ primal, r.val < 12) ∧
      (⟨fun i => if i.val = 0 then 1 else 0⟩ : Hand) =
        ⟨writeAll (writeAll zeroCounts primal 1) kicker 0⟩ :=
  chain_windows_below_two.1 fullDeck ⟨1, 1, 1, 0, fun _ => 0⟩
    ⟨fun i => if i.val = 0 then 1 else 0⟩ (by decide)

end DouDizhu
